import Mathlib

/-!
Verification of the DSPatch component engine (src/src/Component.cpp) against its
natural-language specification.

The engine is shallowly embedded: components are identified by natural numbers,
per-buffer engine state (tick statuses, input/output signal buses, per-output
reference counters, wires, feedback-wire records, release flags) lives in an
explicit state record, and every operation of Component.cpp is translated into a
state-passing Lean function.  The recursive tick walk is given explicit fuel;
exhausted fuel (or a blocking wait in the sequential semantics) is `none`,
i.e. divergence.  Signal values are modelled as naturals: the engine moves
signals around without inspecting them, so any value type works.
-/

namespace DSPatch

/-- A signal value.  The engine treats signal payloads opaquely. -/
abbrev Val := Nat

/-- Component::TickStatus (Component.cpp, internal::Component). -/
inductive TickStatus where
  | notTicked
  | tickStarted
  | ticking
deriving DecidableEq, Repr

/-- DSPatch::Component::ProcessOrder. -/
inductive ProcessOrder where
  | inOrder
  | outOfOrder
deriving DecidableEq, Repr

/-- internal::Wire: (source component, source output index, destination input
index), stored on the consumer side. -/
structure Wire where
  fromComponent : Nat
  fromOutput : Nat
  toInput : Nat
deriving DecidableEq, Repr

/-- One recorded invocation of the user Process_ hook: which component, on which
buffer, the input bus it observed and the output bus it produced. -/
structure Entry where
  comp : Nat
  buffer : Nat
  ins : Nat → Option Val
  outs : Nat → Option Val

/-- The static configuration of a component graph: how many components there
are, each component's arities, its Process_ behaviour (a function from the
observed input bus and the current (cleared) output bus to the produced output
bus), whether a thread pool is attached, each component's process order, and
the buffer count established by SetThreadPool. -/
structure Cfg where
  n : Nat
  inCount : Nat → Nat
  outCount : Nat → Nat
  process : Nat → (Nat → Option Val) → (Nat → Option Val) → (Nat → Option Val)
  hasPool : Bool
  order : Nat → ProcessOrder
  bufferCount : Nat

/-- The mutable engine state of all components: indexed by component id and
buffer number (and cell index for buses / output index for reference
counters).  `feedback` holds, per component and buffer, the indices (into that
component's wire list) recorded in feedbackWires.  `log` records Process_
invocations, newest first. -/
structure St where
  tickStatus : Nat → Nat → TickStatus
  inBus : Nat → Nat → Nat → Option Val
  outBus : Nat → Nat → Nat → Option Val
  refTotal : Nat → Nat → Nat → Int
  refConsumed : Nat → Nat → Nat → Int
  inWires : Nat → List Wire
  feedback : Nat → Nat → List Nat
  gotRelease : Nat → Nat → Bool
  log : List Entry

/-- Set one component's tick status on one buffer. -/
def St.setStatus (s : St) (c b : Nat) (v : TickStatus) : St :=
  { s with tickStatus := fun c' b' => if c' = c ∧ b' = b then v else s.tickStatus c' b' }

/-- SignalBus::ClearAllValues on a component's input bus for one buffer.
Modelled from the spec: clear_all resets every cell to empty. -/
def St.clearInputs (s : St) (c b : Nat) : St :=
  { s with inBus := fun c' b' i => if c' = c ∧ b' = b then none else s.inBus c' b' i }

/-- SignalBus::ClearAllValues on a component's output bus for one buffer.
Modelled from the spec: clear_all resets every cell to empty. -/
def St.clearOutputs (s : St) (c b : Nat) : St :=
  { s with outBus := fun c' b' o => if c' = c ∧ b' = b then none else s.outBus c' b' o }

/-- Write one input-bus cell. -/
def St.setIn (s : St) (c b i : Nat) (v : Option Val) : St :=
  { s with inBus := fun c' b' i' => if c' = c ∧ b' = b ∧ i' = i then v else s.inBus c' b' i' }

/-- Write one output-bus cell. -/
def St.setOut (s : St) (c b o : Nat) (v : Option Val) : St :=
  { s with outBus := fun c' b' o' => if c' = c ∧ b' = b ∧ o' = o then v else s.outBus c' b' o' }

/-- Write one consumed counter (ref.second). -/
def St.setConsumed (s : St) (c b o : Nat) (v : Int) : St :=
  { s with refConsumed := fun c' b' o' => if c' = c ∧ b' = b ∧ o' = o then v else s.refConsumed c' b' o' }

/-- Set one release flag (ReleaseFlag.gotRelease). -/
def St.setRelease (s : St) (c b : Nat) (v : Bool) : St :=
  { s with gotRelease := fun c' b' => if c' = c ∧ b' = b then v else s.gotRelease c' b' }

/-- Record a wire index in feedbackWires[buffer] (unordered_set emplace). -/
def St.addFeedback (s : St) (c b k : Nat) : St :=
  { s with feedback := fun c' b' => if c' = c ∧ b' = b then k :: s.feedback c' b' else s.feedback c' b' }

/-- Erase a wire index from feedbackWires[buffer] (unordered_set erase). -/
def St.eraseFeedback (s : St) (c b k : Nat) : St :=
  { s with feedback := fun c' b' => if c' = c ∧ b' = b then (s.feedback c' b').erase k else s.feedback c' b' }

/-- Replace one component's wire list. -/
def St.setWires (s : St) (c : Nat) (ws : List Wire) : St :=
  { s with inWires := fun c' => if c' = c then ws else s.inWires c' }

/-- The quiescent state a component graph starts in, as established by the
Component constructor via SetThreadPool(nullptr): no wires, zero reference
counters, empty buses, every status NotTicked, and only buffer 0's release
flag pre-set. -/
def initSt : St where
  tickStatus := fun _ _ => .notTicked
  inBus := fun _ _ _ => none
  outBus := fun _ _ _ => none
  refTotal := fun _ _ _ => 0
  refConsumed := fun _ _ _ => 0
  inWires := fun _ => []
  feedback := fun _ _ => []
  gotRelease := fun _ b => b = 0
  log := []

/-- internal::Component::GetOutput (Component.cpp lines 484-520).  Invoked by
downstream component `dst` on upstream component `src`: if the output cell is
empty, return; otherwise increment the consumed counter; if it has not reached
the total, copy the signal into the destination cell (SignalBus::SetSignal);
if it has, reset the counter to 0 and move the signal (SignalBus::MoveSignal,
which swaps the two cells).  The pool branch (threadPool && ref.first > 1)
performs the same arithmetic under a per-output mutex; the mutex has no
content in this sequential model, so the two branches coincide. -/
def getOutput (s : St) (src b o i dst : Nat) : St :=
  match s.outBus src b o with
  | none => s
  | some v =>
    let t := s.refTotal src b o
    let k := s.refConsumed src b o + 1
    if k ≠ t then
      -- not the final reference: copy (SetSignal)
      (s.setConsumed src b o k).setIn dst b i (some v)
    else
      -- the final reference: reset the counter, move the signal (swap cells)
      let w := s.inBus dst b i
      (((s.setConsumed src b o 0).setIn dst b i (some v)).setOut src b o w)

/-- internal::Component::IncRefs (Component.cpp lines 522-528): increment
ref.first for the given output in every buffer's counter table. -/
def incRefs (s : St) (c o : Nat) : St :=
  { s with refTotal := fun c' b o' => if c' = c ∧ o' = o then s.refTotal c' b o' + 1 else s.refTotal c' b o' }

/-- internal::Component::DecRefs (Component.cpp lines 530-536): decrement
ref.first for the given output in every buffer's counter table. -/
def decRefs (s : St) (c o : Nat) : St :=
  { s with refTotal := fun c' b o' => if c' = c ∧ o' = o then s.refTotal c' b o' - 1 else s.refTotal c' b o' }

/-- Remove the first wire with the given destination input from a wire list,
returning the removed wire (if any) and the remaining list — the erase loop of
Component::DisconnectInput(int). -/
def removeFirstTo : List Wire → Nat → Option Wire × List Wire
  | [], _ => (none, [])
  | w :: ws, i =>
    if w.toInput = i then (some w, ws)
    else
      let r := removeFirstTo ws i
      (r.1, w :: r.2)

/-- Component::DisconnectInput(int inputNo) (Component.cpp lines 151-166):
remove the first wire connected to inputNo and decrement the source output's
reference count. -/
def disconnectInput (s : St) (dst i : Nat) : St :=
  match removeFirstTo (s.inWires dst) i with
  | (none, _) => s
  | (some w, ws) => decRefs (s.setWires dst ws) w.fromComponent w.fromOutput

/-- Split a wire list into the wires not sourced at `src` (kept, in order) and
the wires sourced at `src` (removed, in order) — the erase loop of
Component::DisconnectInput(fromComponent). -/
def dropFrom : List Wire → Nat → List Wire × List Wire
  | [], _ => ([], [])
  | w :: ws, src =>
    let r := dropFrom ws src
    if w.fromComponent = src then (r.1, w :: r.2) else (w :: r.1, r.2)

/-- Component::DisconnectInput(fromComponent) (Component.cpp lines 168-185):
remove every wire sourced at `src`, decrementing the source output's
reference count for each removed wire. -/
def disconnectInputByComp (s : St) (dst src : Nat) : St :=
  let r := dropFrom (s.inWires dst) src
  r.2.foldl (fun s' w => decRefs s' w.fromComponent w.fromOutput) (s.setWires dst r.1)

/-- Component::DisconnectAllInputs (Component.cpp lines 187-194): disconnect
input i for every i below the input count. -/
def disconnectAllInputs (cfg : Cfg) (s : St) (dst : Nat) : St :=
  (List.range (cfg.inCount dst)).foldl (fun s' i => disconnectInput s' dst i) s

/-- Component::ConnectInput (Component.cpp lines 133-149): reject an arity
mismatch with false; otherwise disconnect any prior wire into toInput, record
the new wire, increment the source output's reference count in every buffer,
and return true. -/
def connectInput (cfg : Cfg) (s : St) (dst src o i : Nat) : Bool × St :=
  if cfg.outCount src ≤ o ∨ cfg.inCount dst ≤ i then
    (false, s)
  else
    let s1 := disconnectInput s dst i
    let s2 := s1.setWires dst (s1.inWires dst ++ [⟨src, o, i⟩])
    (true, incRefs s2 src o)

/-- Component::Reset (Component.cpp lines 348-358): wait for the component's
dispatched work (a synchronisation step with no state content in this
sequential model), clear the buffer's input bus, and set the tick status back
to NotTicked.  The output bus is not touched. -/
def reset (s : St) (c b : Nat) : St :=
  (s.clearInputs c b).setStatus c b .notTicked

/-- internal::Component::WaitForRelease (Component.cpp lines 450-467): consume
the buffer's release flag if it is set; otherwise block.  Blocking is `none`
(divergence) in this sequential semantics. -/
def waitForRelease (s : St) (c b : Nat) : Option St :=
  if s.gotRelease c b then some (s.setRelease c b false) else none

/-- internal::Component::ReleaseThread (Component.cpp lines 469-482): set the
release flag of the next buffer, wrapping bufferCount to 0. -/
def releaseThread (cfg : Cfg) (s : St) (c b : Nat) : St :=
  let t := b + 1
  let t := if t = cfg.bufferCount then 0 else t
  s.setRelease c t true

/-- The Process_ call made from Component::_DoTick: apply the component's
process function to the (freshly pulled) input bus and the (just cleared)
output bus, store the produced output bus, and log the invocation. -/
def procRun (cfg : Cfg) (c b : Nat) (s : St) : St :=
  let ins := s.inBus c b
  let outs := cfg.process c ins (s.outBus c b)
  { s with
    outBus := fun c' b' => if c' = c ∧ b' = b then outs else s.outBus c' b'
    log := ⟨c, b, ins, outs⟩ :: s.log }

/-- The pull loop of Component::_DoTick in pool mode (Component.cpp lines
394-408): for each wire (identified by its index `k` in the component's wire
list, standing in for the C++ Wire pointer), either wait on the source
component's thread (a synchronisation step with no state content here) when
the wire is not a recorded feedback wire, or erase it from feedbackWires when
it is; then pull the source output via GetOutput. -/
def pullPool (c b : Nat) : List (Nat × Wire) → St → St
  | [], s => s
  | (k, w) :: ws, s =>
    let s1 := if k ∈ s.feedback c b then s.eraseFeedback c b k else s
    pullPool c b ws (getOutput s1 w.fromComponent b w.fromOutput w.toInput c)

mutual

/-- Component::Tick (Component.cpp lines 306-346).  Fuel bounds the recursion
depth; `none` is divergence (the C++ call never returning).  With a pool the
NotTicked branch ticks the incoming components while in TickStarted, records
the wires whose source reported an already-started tick as feedback wires,
then moves to Ticking and dispatches _DoTick (TickAsync, modelled as running
at the dispatch point); without a pool it moves to Ticking and runs _DoTick
inline.  An already-started tick returns false; otherwise the call returns
true. -/
def tick (cfg : Cfg) (fuel : Nat) (c b : Nat) (s : St) : Option (Bool × St) :=
  match fuel with
  | 0 => none
  | fuel' + 1 =>
    match s.tickStatus c b with
    | .notTicked =>
      -- 1. set tickStatus -> TickStarted
      let s1 := s.setStatus c b .tickStarted
      if cfg.hasPool then
        -- 2. tick incoming components, recording feedback wires
        match tickPre cfg fuel' c b (s1.inWires c).enum s1 with
        | none => none
        | some s2 =>
          -- 3. set tickStatus -> Ticking, then TickAsync
          let s3 := s2.setStatus c b .ticking
          match doTick cfg fuel' c b s3 with
          | none => none
          | some s4 => some (true, s4)
      else
        -- 2. set tickStatus -> Ticking
        let s2 := s1.setStatus c b .ticking
        match doTick cfg fuel' c b s2 with
        | none => none
        | some s3 => some (true, s3)
    | .tickStarted =>
      -- we have already started a tick: we are a feedback component
      some (false, s)
    | .ticking => some (true, s)
termination_by structural fuel

/-- Step 2 of Component::Tick in pool mode (Component.cpp lines 316-323): tick
each incoming component; a source returning false is recorded in
feedbackWires under its wire index. -/
def tickPre (cfg : Cfg) (fuel : Nat) (c b : Nat) (l : List (Nat × Wire)) (s : St) : Option St :=
  match fuel with
  | 0 => none
  | fuel' + 1 =>
    match l with
    | [] => some s
    | (k, w) :: ws =>
      match tick cfg fuel' w.fromComponent b s with
      | none => none
      | some (ok, s1) =>
        tickPre cfg fuel' c b ws (if ok then s1 else s1.addFeedback c b k)
termination_by structural fuel

/-- Component::_DoTick (Component.cpp lines 390-448): pull inputs from the
incoming components (re-entrantly ticking them first when there is no pool),
then clear the outputs, then run Process_ — for an InOrder component with
more than one buffer, bracketed by WaitForRelease and ReleaseThread. -/
def doTick (cfg : Cfg) (fuel : Nat) (c b : Nat) (s : St) : Option St :=
  match fuel with
  | 0 => none
  | fuel' + 1 =>
    let pulled :=
      if cfg.hasPool then
        -- 4. get new inputs from incoming components
        some (pullPool c b (s.inWires c).enum s)
      else
        -- 3./4. tick incoming components and get new inputs from them
        pullSeries cfg fuel' c b (s.inWires c) s
    match pulled with
    | none => none
    | some s1 =>
      -- 5. clear outputs (deferred to here, not Reset, so that loopback wires
      -- can still grab the previous tick's outputs during the pull above)
      let s2 := s1.clearOutputs c b
      if cfg.order c = .inOrder ∧ 1 < cfg.bufferCount then
        -- 6. wait for our turn, 7. process, 8. release the next thread
        match waitForRelease s2 c b with
        | none => none
        | some s3 => some (releaseThread cfg (procRun cfg c b s3) c b)
      else
        -- 6. call Process_ with newly acquired inputs
        some (procRun cfg c b s2)
termination_by structural fuel

/-- The pull loop of Component::_DoTick without a pool (Component.cpp lines
412-419): tick each incoming component (discarding its result), then pull its
output via GetOutput. -/
def pullSeries (cfg : Cfg) (fuel : Nat) (c b : Nat) (l : List Wire) (s : St) : Option St :=
  match fuel with
  | 0 => none
  | fuel' + 1 =>
    match l with
    | [] => some s
    | w :: ws =>
      match tick cfg fuel' w.fromComponent b s with
      | none => none
      | some (_, s1) =>
        pullSeries cfg fuel' c b ws (getOutput s1 w.fromComponent b w.fromOutput w.toInput c)
termination_by structural fuel

end

/-- A minimal concrete configuration for witnesses: one component with one
input and one output, a Process_ that copies input 0 to output 0, no pool,
one buffer. -/
def cfgW : Cfg :=
  ⟨1, fun _ => 1, fun _ => 1, fun _ ins _ o => if o = 0 then ins 0 else none,
    false, fun _ => .outOfOrder, 1⟩

/-- A concrete state whose components are mid-tick (TickStarted). -/
def stStarted : St :=
  { initSt with tickStatus := fun _ _ => .tickStarted }

/-- A concrete state where component 0 holds the value 7 on output 0 with a
recorded fan-out of 2 and no reference consumed yet. -/
def stOut : St :=
  { initSt with
    outBus := fun c b o => if c = 0 ∧ b = 0 ∧ o = 0 then some 7 else none
    refTotal := fun _ _ _ => 2 }

/-- Does a wire read from output `o` of component `c`? -/
def srcMatch (c o : Nat) : Wire → Bool :=
  fun w => w.fromComponent = c && w.fromOutput = o

/-- The fan-out of output `o` of component `c`: how many wires recorded
anywhere in the graph read from it. -/
def fanout (cfg : Cfg) (s : St) (c o : Nat) : Nat :=
  ∑ d ∈ Finset.range cfg.n, (s.inWires d).countP (srcMatch c o)

/-- A wiring change: one call to ConnectInput, DisconnectInput (by input
index or by source component) or DisconnectAllInputs, on a given callee. -/
inductive WOp where
  | connect (dst src o i : Nat)
  | disconnectIdx (dst i : Nat)
  | disconnectComp (dst src : Nat)
  | disconnectAll (dst : Nat)
deriving DecidableEq, Repr

/-- The component a wiring change is invoked on. -/
def WOp.dest : WOp → Nat
  | .connect dst _ _ _ => dst
  | .disconnectIdx dst _ => dst
  | .disconnectComp dst _ => dst
  | .disconnectAll dst => dst

/-- Apply one wiring change. -/
def applyWOp (cfg : Cfg) (s : St) : WOp → St
  | .connect dst src o i => (connectInput cfg s dst src o i).2
  | .disconnectIdx dst i => disconnectInput s dst i
  | .disconnectComp dst src => disconnectInputByComp s dst src
  | .disconnectAll dst => disconnectAllInputs cfg s dst

/-- Apply a sequence of wiring changes. -/
def applyWOps (cfg : Cfg) (s : St) (ops : List WOp) : St :=
  ops.foldl (applyWOp cfg) s

/-- The reference-total invariant: for every component, buffer and output, the
stored reference total equals the number of wires currently recorded anywhere
whose source is that component and whose source output is that output. -/
def RefTotalsOk (cfg : Cfg) (s : St) : Prop :=
  ∀ c b o, s.refTotal c b o = (fanout cfg s c o : Int)

mutual

/-- Component::GetCircuitPosition (Component.cpp lines 196-208), fuel-indexed:
for each input wire, recursively ask the source component for its position
with offset 1 and keep the furthest; return offset plus the furthest.  The
C++ recursion has no cycle guard and no visited set; exhausting the fuel
(`none`) models the recursion not returning. -/
def getCircuitPosition (ws : Nat → List Wire) (fuel : Nat) (c offset : Nat) : Option Nat :=
  match fuel with
  | 0 => none
  | fuel' + 1 => (gcpFold ws fuel' (ws c) 0).map (fun furthest => offset + furthest)
termination_by (fuel, 0)

/-- The wire loop inside Component::GetCircuitPosition: fold the recursive
positions of the wire sources, keeping the furthest seen so far. -/
def gcpFold (ws : Nat → List Wire) (fuel : Nat) (l : List Wire) (furthest : Nat) : Option Nat :=
  match l with
  | [] => some furthest
  | w :: rest =>
    match getCircuitPosition ws fuel w.fromComponent 1 with
    | none => none
    | some pos => gcpFold ws fuel rest (if furthest < pos then pos else furthest)
termination_by (fuel, l.length + 1)

end

/-- The GetCircuitPosition recursion on graph `ws` from component `c` reaches
a result at some finite depth. -/
def GcpTerminates (ws : Nat → List Wire) (c offset : Nat) : Prop :=
  ∃ fuel, (getCircuitPosition ws fuel c offset).isSome

/-- A backward chain of `k` input wires ending at component `c`: there are
components c = c₀, c₁, …, c_k such that some input wire of c_j has source
c_{j+1}. -/
inductive HasChain (ws : Nat → List Wire) : Nat → Nat → Prop
  | zero (c : Nat) : HasChain ws c 0
  | succ {c k : Nat} (w : Wire) (hw : w ∈ ws c) (h : HasChain ws w.fromComponent k) :
      HasChain ws c (k + 1)

/-- The one-component graph with the self-loop wire 0.out0 → 0.in1. -/
def wsLoop : Nat → List Wire :=
  fun c => if c = 0 then [⟨0, 0, 1⟩] else []

/-- A three-component forward chain 0 → 1 → 2. -/
def wsChain : Nat → List Wire :=
  fun c => if c = 1 then [⟨0, 0, 0⟩] else if c = 2 then [⟨1, 0, 0⟩] else []

/-- std::vector::resize: keep the first `n` entries, value-initialize the
rest. -/
def listResize (l : List α) (n : Nat) (dflt : α) : List α :=
  l.take n ++ List.replicate (n - l.length) dflt

/-- The parameters of a DSPatch::ThreadPool: buffer count and threads per
buffer. -/
structure PoolArg where
  bufferCount : Nat
  threadsPerBuffer : Nat
deriving DecidableEq, Repr

/-- The per-component state touched by Component::SetThreadPool: the stored
pool, the buffer count, and the per-buffer vectors — tick statuses, input and
output bus sizes, release flags (gotRelease), and the per-output reference
counter tables (total, consumed).  componentThreads and refMutexes are thread
and mutex machinery with no further state content; the resized feedback-wire
sets are empty in the quiescent states where SetThreadPool runs. -/
structure CompCfgSt where
  threadPool : Option PoolArg
  bufferCount : Nat
  tickStatuses : List TickStatus
  inputBusSizes : List Nat
  outputBusSizes : List Nat
  releaseFlags : List Bool
  refs : List (List (Int × Int))

/-- The buffer count Component::SetThreadPool settles on: the pool's buffer
count (0 for a null pool), forced up to 1 — there needs to be at least one
buffer. -/
def newBufferCount (pool : Option PoolArg) : Nat :=
  let bc0 : Nat :=
    match pool with
    | some p => p.bufferCount
    | none => 0
  if bc0 ≤ 0 then 1 else bc0

/-- Component::SetThreadPool (Component.cpp lines 241-304).  A non-null pool
argument proposes its buffer count and is stored when its threadsPerBuffer is
non-zero (otherwise the stored pool is cleared); a null argument proposes 0
and leaves the stored pool untouched.  The per-buffer vectors are resized to
the new buffer count, and the init loop then sets every buffer's status to
NotTicked, synchronizes every buffer's bus sizes and reference counters from
buffer 0's, and clears every release flag; finally buffer 0's release flag is
pre-set. -/
def setThreadPool (s : CompCfgSt) (pool : Option PoolArg) : CompCfgSt :=
  let tp : Option PoolArg :=
    match pool with
    | some p => if p.threadsPerBuffer ≠ 0 then some p else none
    | none => s.threadPool
  let bufferCount := newBufferCount pool
  let statuses := listResize s.tickStatuses bufferCount .notTicked
  let inSizes := listResize s.inputBusSizes bufferCount 0
  let outSizes := listResize s.outputBusSizes bufferCount 0
  let flags := listResize s.releaseFlags bufferCount false
  let refs1 := listResize s.refs bufferCount []
  -- the init loop overwrites every entry: refs[i] is resized to refs[0]'s
  -- size and then copied from refs[0] element by element
  { threadPool := tp
    bufferCount := bufferCount
    tickStatuses := statuses.map (fun _ => TickStatus.notTicked)
    inputBusSizes := inSizes.map (fun _ => inSizes.headD 0)
    outputBusSizes := outSizes.map (fun _ => outSizes.headD 0)
    releaseFlags := (flags.map (fun _ => false)).set 0 true
    refs := refs1.map (fun _ => refs1.headD []) }

/-- A concrete pre-SetThreadPool component state: one buffer mid-run, with a
recorded fan-out of 3 (1 consumed) on its single output. -/
def sW10 : CompCfgSt :=
  ⟨none, 1, [.ticking], [2], [1], [true], [[(3, 1)]]⟩

/-- The release-flag state of one InOrder component across its buffers: which
buffers' gotRelease flags are set, and which buffers are currently inside
Process_ (between WaitForRelease and ReleaseThread in _DoTick). -/
structure FlagSt where
  flags : Nat → Bool
  running : List Nat

/-- An event of the InOrder protocol in Component::_DoTick steps 6-8:
Process_ for a buffer begins (its WaitForRelease returned) or ends (its
ReleaseThread runs). -/
inductive FlagEv where
  | start (b : Nat)
  | finish (b : Nat)
deriving DecidableEq, Repr

/-- The next-thread computation of internal::Component::ReleaseThread
(Component.cpp lines 469-482): b + 1, wrapped to 0 at bufferCount. -/
def nextBuffer (bufferCount b : Nat) : Nat :=
  let t := b + 1
  if t = bufferCount then 0 else t

/-- One step of the InOrder protocol, abstracting the concurrent _DoTick
workers of one component (Component.cpp lines 432-441, 450-482): Process_ for
a buffer may begin only by consuming that buffer's release flag
(WaitForRelease blocks otherwise — no successor state); when it ends, the
next buffer's flag is set (ReleaseThread). -/
def flagStep (bufferCount : Nat) (s : FlagSt) : FlagEv → Option FlagSt
  | .start b =>
    if s.flags b then
      some { flags := fun b' => if b' = b then false else s.flags b'
             running := b :: s.running }
    else
      none
  | .finish b =>
    if b ∈ s.running then
      some { flags := fun b' => if b' = nextBuffer bufferCount b then true else s.flags b'
             running := s.running.erase b }
    else
      none

/-- The flag state SetThreadPool establishes: only buffer 0's flag set,
nothing running. -/
def initFlagSt : FlagSt :=
  ⟨fun b => b = 0, []⟩

/-- Run a sequence of protocol events from a given state. -/
def runFlagsFrom (bufferCount : Nat) (s : FlagSt) : List FlagEv → Option FlagSt
  | [] => some s
  | e :: es =>
    match flagStep bufferCount s e with
    | none => none
    | some s' => runFlagsFrom bufferCount s' es

/-- Run a sequence of protocol events from the post-configuration state. -/
def runFlags (bufferCount : Nat) (es : List FlagEv) : Option FlagSt :=
  runFlagsFrom bufferCount initFlagSt es

/-- The buffers whose Process_ began, in event order. -/
def startsOf : List FlagEv → List Nat
  | [] => []
  | .start b :: es => b :: startsOf es
  | .finish _ :: es => startsOf es

/-- Every wire held by a graph component has its source inside the graph. -/
def WiresBounded (cfg : Cfg) (s : St) : Prop :=
  ∀ d, d < cfg.n → ∀ w ∈ s.inWires d, w.fromComponent < cfg.n

/-- Every consumed counter is non-negative and either strictly below its
total or zero. -/
def ConsumedOk (s : St) : Prop :=
  ∀ c b o, 0 ≤ s.refConsumed c b o ∧
    (s.refConsumed c b o < s.refTotal c b o ∨ s.refConsumed c b o = 0)

/-- A valid reference-counting state: totals match the recorded fan-outs,
wires stay inside the graph, and consumed counters are in range. -/
def RefValid (cfg : Cfg) (s : St) : Prop :=
  RefTotalsOk cfg s ∧ WiresBounded cfg s ∧ ConsumedOk s

/-- The C4 counterexample graph: component 0 always produces 5 on output 0
and feeds both itself (self-loop 0.out0 → 0.in0) and component 1
(0.out0 → 1.in0), so that output has fan-out 2; the self-loop reader reads
the output cell before the tick's value is produced, the forward reader
after. -/
def cfgCex : Cfg :=
  ⟨2, fun _ => 1, fun _ => 1,
    fun c _ _ o => if c = 0 ∧ o = 0 then some 5 else none,
    false, fun _ => .outOfOrder, 1⟩

/-- The counterexample wiring: 0.out0 → 0.in0 and 0.out0 → 1.in0. -/
def sCex0 : St :=
  (connectInput cfgCex (connectInput cfgCex initSt 0 0 0 0).2 1 0 0 0).2

/-- One Series circuit pass over the counterexample graph: tick both
components in list order, then reset both. -/
def passCex (s : St) : Option St :=
  ((tick cfgCex 8 0 0 s).bind (fun p => tick cfgCex 8 1 0 p.2)).map
    (fun p => reset (reset p.2 0 0) 1 0)

/-- The counterexample run: k Series passes. -/
def runCex : Nat → Option St
  | 0 => some sCex0
  | k + 1 => (runCex k).bind passCex

/-- The C3 scenario: a single component C with two inputs and one output,
Process_ behaviour `f`, ticked in Series mode (no pool, one buffer). -/
def cfg3 (f : (Nat → Option Val) → (Nat → Option Val) → Nat → Option Val) : Cfg :=
  ⟨1, fun _ => 2, fun _ => 1, fun _ => f, false, fun _ => .outOfOrder, 1⟩

/-- The C3 initial state: the self-loop wire C.out0 → C.in1 connected through
ConnectInput on the quiescent initial state. -/
def st3 (f : (Nat → Option Val) → (Nat → Option Val) → Nat → Option Val) : St :=
  (connectInput (cfg3 f) initSt 0 0 0 1).2

/-- One Series pass over the C3 graph — Tick then Reset on buffer 0, the
single-buffer loop of the circuit driver. -/
def pass3 (f : (Nat → Option Val) → (Nat → Option Val) → Nat → Option Val) (s : St) :
    Option St :=
  (tick (cfg3 f) 4 0 0 s).map (fun p => reset p.2 0 0)

/-- The C3 run: k Series passes from the initial state. -/
def run3 (f : (Nat → Option Val) → (Nat → Option Val) → Nat → Option Val) : Nat → Option St
  | 0 => some (st3 f)
  | k + 1 => (run3 f k).bind (pass3 f)

/-- The input bus Process_ observes in a C3 pass: cell 1 holds whatever the
feedback read delivered, every other cell is empty. -/
def mkIns3 (v : Option Val) : Nat → Option Val :=
  fun i => if i = 1 then v else none

/-- The log entry a C3 pass records when the pre-pass output cell holds `v`. -/
def mkE3 (f : (Nat → Option Val) → (Nat → Option Val) → Nat → Option Val)
    (v : Option Val) : Entry :=
  ⟨0, 0, mkIns3 v, f (mkIns3 v) (fun _ => none)⟩

/-- The Process_ invocation of tick number N of the C3 run. -/
def entry3 (f : (Nat → Option Val) → (Nat → Option Val) → Nat → Option Val)
    (N : Nat) : Option Entry :=
  (run3 f (N + 1)).bind (fun s => s.log.head?)

/-- The C3 between-pass invariant: component 0 is NotTicked with cleared
inputs, the self-loop wire and its unit fan-out are recorded, no reference is
mid-consumption, and the output cell still holds what the latest Process_
produced (none before the first tick). -/
def Inv3 (s : St) : Prop :=
  s.tickStatus 0 0 = .notTicked ∧
  s.inWires 0 = [⟨0, 0, 1⟩] ∧
  (∀ i, s.inBus 0 0 i = none) ∧
  s.refTotal 0 0 0 = 1 ∧
  s.refConsumed 0 0 0 = 0 ∧
  s.outBus 0 0 0 = (match s.log.head? with
    | none => none
    | some e => e.outs 0)

/-- A two-component configuration (each with two inputs, one output) for
concrete wiring witnesses. -/
def cfg5 : Cfg :=
  ⟨2, fun _ => 2, fun _ => 1, fun _ _ _ _ => none, false, fun _ => .outOfOrder, 1⟩

/-- A concrete wiring sequence: connect 0.out0 to both inputs of component 1,
then disconnect input 0 again. -/
def ops5 : List WOp :=
  [.connect 1 0 0 0, .connect 1 0 0 1, .disconnectIdx 1 0]

end DSPatch

namespace DSPatch

/-- C1: Tick(b) returns false if and only if the component's tick status for
buffer b is TickStarted at the moment of the call (the caller arrived via a
feedback edge); in every other case — including when the status is already
Ticking — a returning call reports true, and a re-entrant call made while in
TickStarted leaves the state (in particular the log of Process_ invocations)
unchanged, so it does not invoke Process_ again. -/
theorem C1_tick_reentry (cfg : Cfg) (fuel c b : Nat) (s : St) :
    (s.tickStatus c b = .tickStarted → tick cfg (fuel + 1) c b s = some (false, s)) ∧
    (∀ r s', tick cfg (fuel + 1) c b s = some (r, s') →
      (r = false ↔ s.tickStatus c b = .tickStarted)) := by
  constructor
  · intro h
    rw [tick, h]
  · intro r s' h
    rw [tick] at h
    cases hst : s.tickStatus c b <;> rw [hst] at h
    · simp only at h
      split at h
      · split at h
        · exact absurd h (by simp)
        · split at h
          · exact absurd h (by simp)
          · simp only [Option.some.injEq, Prod.mk.injEq] at h
            simp [← h.1, hst]
      · split at h
        · exact absurd h (by simp)
        · simp only [Option.some.injEq, Prod.mk.injEq] at h
          simp [← h.1, hst]
    · simp only [Option.some.injEq, Prod.mk.injEq] at h
      simp [← h.1]
    · simp only [Option.some.injEq, Prod.mk.injEq] at h
      simp [← h.1, hst]

/-- Closing the hypotheses of C1_tick_reentry at a concrete input: a component
in TickStarted returns false with the state unchanged. -/
theorem C1_tick_reentry_witness :
    tick cfgW 1 0 0 stStarted = some (false, stStarted) :=
  (C1_tick_reentry cfgW 0 0 0 stStarted).1 rfl

/-- C2: GetOutput(bufferNo, fromOutput, toInput, toBus): if the output cell is
empty the whole state (in particular the destination bus) is untouched;
otherwise the consumed counter for that (buffer, output) is incremented, and
if it has not reached the total fan-out the signal is copied into the
destination cell (the source cell keeps its value), while if it has reached
the total the counter is reset to 0 and the signal is moved — swapped — into
the destination cell (the source cell receives the destination's previous
content). -/
theorem C2_getOutput_refcount (s : St) (src b o i dst : Nat) :
    (s.outBus src b o = none → getOutput s src b o i dst = s) ∧
    (∀ v, s.outBus src b o = some v →
      (s.refConsumed src b o + 1 ≠ s.refTotal src b o →
        (getOutput s src b o i dst).refConsumed src b o = s.refConsumed src b o + 1 ∧
        (getOutput s src b o i dst).inBus dst b i = some v ∧
        (getOutput s src b o i dst).outBus src b o = some v) ∧
      (s.refConsumed src b o + 1 = s.refTotal src b o →
        (getOutput s src b o i dst).refConsumed src b o = 0 ∧
        (getOutput s src b o i dst).inBus dst b i = some v ∧
        (getOutput s src b o i dst).outBus src b o = s.inBus dst b i)) := by
  refine ⟨fun h => by rw [getOutput, h], fun v hv => ⟨fun hne => ?_, fun heq => ?_⟩⟩
  · rw [getOutput, hv]
    simp only [hne, if_true, ite_not, if_neg, if_pos]
    refine ⟨?_, ?_, ?_⟩ <;> simp [St.setIn, St.setConsumed, hv]
  · rw [getOutput, hv]
    simp only [heq, ite_not, if_neg, not_true_eq_false, if_false, ne_eq,
      not_false_eq_true, if_pos]
    refine ⟨?_, ?_, ?_⟩ <;> simp [St.setOut, St.setIn, St.setConsumed]

/-- Closing the hypotheses of C2_getOutput_refcount at a concrete input: a
non-final read copies the value and bumps the counter. -/
theorem C2_getOutput_refcount_witness :
    (getOutput stOut 0 0 0 0 1).refConsumed 0 0 0 = 1 ∧
    (getOutput stOut 0 0 0 0 1).inBus 1 0 0 = some 7 ∧
    (getOutput stOut 0 0 0 0 1).outBus 0 0 0 = some 7 := by
  have h := ((C2_getOutput_refcount stOut 0 0 0 0 1).2 7 rfl).1 (by decide)
  exact ⟨h.1, h.2.1, h.2.2⟩

/-- C7: ConnectInput(src, src_out, dst_in): an arity mismatch (source output
index out of the source's output range, or destination input index out of the
callee's input range) returns false and changes no state (and, being a total
function of the state, raises nothing); otherwise the call returns true and
its result is the prior-wire disconnection followed by recording the new wire
at the end of the callee's wire list and incrementing src's reference total
for src_out in every buffer (all other totals and all other components' wire
lists as after the disconnection alone). -/
theorem C7_connectInput_validation (cfg : Cfg) (s : St) (dst src o i : Nat) :
    (cfg.outCount src ≤ o ∨ cfg.inCount dst ≤ i →
      connectInput cfg s dst src o i = (false, s)) ∧
    (o < cfg.outCount src → i < cfg.inCount dst →
      (connectInput cfg s dst src o i).1 = true ∧
      (connectInput cfg s dst src o i).2.inWires dst
        = (disconnectInput s dst i).inWires dst ++ [⟨src, o, i⟩] ∧
      (∀ b, (connectInput cfg s dst src o i).2.refTotal src b o
        = (disconnectInput s dst i).refTotal src b o + 1) ∧
      (∀ c' b o', ¬(c' = src ∧ o' = o) →
        (connectInput cfg s dst src o i).2.refTotal c' b o'
          = (disconnectInput s dst i).refTotal c' b o') ∧
      (∀ d, d ≠ dst → (connectInput cfg s dst src o i).2.inWires d
        = (disconnectInput s dst i).inWires d)) := by
  constructor
  · intro h
    rw [connectInput, if_pos h]
  · intro h1 h2
    rw [connectInput, if_neg (by omega)]
    refine ⟨rfl, ?_, fun b => ?_, fun c' b o' hne => ?_, fun d hd => ?_⟩
    · simp [incRefs, St.setWires]
    · simp [incRefs, St.setWires]
    · simp [incRefs, St.setWires, hne]
    · simp [incRefs, St.setWires, hd]

/-- Closing the hypotheses of C7_connectInput_validation at concrete inputs:
an out-of-range output index is rejected without touching the state, and a
valid connection to the fresh initial state records the wire and counts one
reference. -/
theorem C7_connectInput_validation_witness :
    connectInput cfgW initSt 0 0 3 0 = (false, initSt) ∧
    (connectInput cfgW initSt 0 0 0 0).2.inWires 0 = [⟨0, 0, 0⟩] ∧
    (connectInput cfgW initSt 0 0 0 0).2.refTotal 0 5 0 = 1 := by
  refine ⟨(C7_connectInput_validation cfgW initSt 0 0 3 0).1 (by decide), ?_, ?_⟩
  · have h := ((C7_connectInput_validation cfgW initSt 0 0 0 0).2 (by decide) (by decide)).2.1
    rw [h]
    rfl
  · have h := (((C7_connectInput_validation cfgW initSt 0 0 0 0).2 (by decide) (by decide)).2.2).1 5
    rw [h]
    rfl

/-- C8: Reset(b) clears every cell of the buffer's input bus and sets the tick
status to NotTicked while leaving every output bus unchanged (the wait on the
component's dispatched work is a synchronisation step with no further state
effect); outputs are cleared only inside the next tick's _DoTick — after the
inputs have been pulled from the pre-clear state and before Process_ runs, so
Process_ receives an all-empty output bus built from the pulled inputs. -/
theorem C8_reset_frame (s : St) (c b : Nat) :
    (∀ i, (reset s c b).inBus c b i = none) ∧
    (reset s c b).tickStatus c b = .notTicked ∧
    (∀ c' b' o, (reset s c b).outBus c' b' o = s.outBus c' b' o) ∧
    (∀ cfg fuel s', doTick cfg (fuel + 1) c b s = some s' →
      ∃ sp, (if cfg.hasPool then some (pullPool c b (s.inWires c).enum s)
             else pullSeries cfg fuel c b (s.inWires c) s) = some sp ∧
        ∀ o, s'.outBus c b o = cfg.process c (sp.inBus c b) (fun _ => none) o) := by
  refine ⟨fun i => by simp [reset, St.clearInputs, St.setStatus],
    by simp [reset, St.clearInputs, St.setStatus],
    fun c' b' o => by simp [reset, St.clearInputs, St.setStatus],
    fun cfg fuel s' h => ?_⟩
  rw [doTick] at h
  cases hp : (if cfg.hasPool then some (pullPool c b (s.inWires c).enum s)
              else pullSeries cfg fuel c b (s.inWires c) s) with
  | none => rw [hp] at h; exact absurd h (by simp)
  | some sp =>
    rw [hp] at h
    refine ⟨sp, rfl, fun o => ?_⟩
    have hclear : (sp.clearOutputs c b).outBus c b = fun _ => none := by
      funext o'
      simp [St.clearOutputs]
    simp only at h
    split at h
    · cases hw : waitForRelease (sp.clearOutputs c b) c b with
      | none => rw [hw] at h; exact absurd h (by simp)
      | some s3 =>
        rw [hw] at h
        simp only [Option.some.injEq] at h
        rw [waitForRelease] at hw
        split at hw
        · simp only [Option.some.injEq] at hw
          subst h
          subst hw
          simp [releaseThread, procRun, St.setRelease, St.clearOutputs]
        · exact absurd hw (by simp)
    · simp only [Option.some.injEq] at h
      subst h
      simp [procRun, St.clearOutputs]

/-- Closing the hypotheses of C8_reset_frame at a concrete input: resetting
the initial state clears its inputs, and a _DoTick on it hands Process_ the
pulled inputs together with an all-empty output bus. -/
theorem C8_reset_frame_witness :
    (∀ i, (reset initSt 0 0).inBus 0 0 i = none) ∧
    (∀ o, (procRun cfgW 0 0 (St.clearOutputs initSt 0 0)).outBus 0 0 o
      = cfgW.process 0 (initSt.inBus 0 0) (fun _ => none) o) := by
  obtain ⟨h1, h2, h3, h4⟩ := C8_reset_frame initSt 0 0
  obtain ⟨sp, hsp, hout⟩ := h4 cfgW 1 (procRun cfgW 0 0 (St.clearOutputs initSt 0 0)) rfl
  have hsp' : sp = initSt := by
    have h5 : pullSeries cfgW 1 0 0 (initSt.inWires 0) initSt = some sp := by
      simpa [cfgW] using hsp
    have h6 : pullSeries cfgW 1 0 0 (initSt.inWires 0) initSt = some initSt := rfl
    rw [h6] at h5
    exact (Option.some_inj.mp h5).symm
  rw [hsp'] at hout
  exact ⟨h1, hout⟩

/-- C6 counterexample: on the graph with the self-loop wire 0.out0 → 0.in1,
the GetCircuitPosition recursion from component 0 does not return at any
finite depth — the claim that it terminates for every graph, including graphs
with feedback edges and self-loops, is false on the code: each node's
recursion explores its declared inputs, and a self-loop makes the node its
own declared input. -/
theorem C6_counterexample_self_loop : ¬ GcpTerminates wsLoop 0 0 := by
  have key : ∀ fuel offset, getCircuitPosition wsLoop fuel 0 offset = none := by
    intro fuel
    induction fuel with
    | zero =>
      intro offset
      rw [getCircuitPosition]
    | succ f ih =>
      intro offset
      rw [getCircuitPosition]
      have hws : wsLoop 0 = [⟨0, 0, 1⟩] := rfl
      rw [hws, gcpFold, ih 1]
      rfl
  rintro ⟨fuel, hf⟩
  rw [key fuel 0] at hf
  simp at hf

theorem gcpFold_ranked (ws : Nat → List Wire) (rk : Nat → Nat) :
    ∀ (l : List Wire) (furthest : Nat),
      (∀ w ∈ l, ∃ Lw,
        (∀ fuel, rk w.fromComponent < fuel →
          getCircuitPosition ws fuel w.fromComponent 1 = some (1 + Lw)) ∧
        HasChain ws w.fromComponent Lw ∧
        (∀ k, HasChain ws w.fromComponent k → k ≤ Lw)) →
      ∃ M,
        (∀ fuel, (∀ w ∈ l, rk w.fromComponent < fuel) →
          gcpFold ws fuel l furthest = some M) ∧
        furthest ≤ M ∧
        (∀ w ∈ l, ∀ k, HasChain ws w.fromComponent k → k + 1 ≤ M) ∧
        (M = furthest ∨ ∃ w, w ∈ l ∧ ∃ k, HasChain ws w.fromComponent k ∧ M = k + 1) := by
  intro l
  induction l with
  | nil =>
    intro furthest _
    exact ⟨furthest, fun fuel _ => by rw [gcpFold], le_refl _, by simp, Or.inl rfl⟩
  | cons w rest ih =>
    intro furthest hall
    obtain ⟨Lw, hLw, hchW, hubW⟩ := hall w (List.mem_cons_self _ _)
    obtain ⟨M, hM, hfM, hbound, hchar⟩ :=
      ih (if furthest < 1 + Lw then 1 + Lw else furthest)
        (fun w' hw' => hall w' (List.mem_cons_of_mem _ hw'))
    refine ⟨M, ?_, ?_, ?_, ?_⟩
    · intro fuel hfuel
      rw [gcpFold, hLw fuel (hfuel w (List.mem_cons_self _ _))]
      exact hM fuel (fun w' hw' => hfuel w' (List.mem_cons_of_mem _ hw'))
    · have h1 : furthest ≤ (if furthest < 1 + Lw then 1 + Lw else furthest) := by
        split <;> omega
      omega
    · intro w' hw' k hk
      rcases List.mem_cons.mp hw' with rfl | hmem
      · have hk' := hubW k hk
        have h1 : 1 + Lw ≤ (if furthest < 1 + Lw then 1 + Lw else furthest) := by
          split <;> omega
        omega
      · exact hbound w' hmem k hk
    · rcases hchar with h0 | ⟨w', hw', k, hk, hM'⟩
      · by_cases hcmp : furthest < 1 + Lw
        · rw [if_pos hcmp] at h0
          exact Or.inr ⟨w, List.mem_cons_self _ _, Lw, hchW, by omega⟩
        · rw [if_neg hcmp] at h0
          exact Or.inl h0
      · exact Or.inr ⟨w', List.mem_cons_of_mem _ hw', k, hk, hM'⟩

/-- C6 amended: GetCircuitPosition does not terminate on a component that can
reach itself through input wires (see the self-loop counterexample); on an
acyclic graph — witnessed by a rank function that strictly decreases along
input wires — it terminates whenever the recursion depth exceeds the
component's rank, returning offset plus the length of the longest chain of
input wires feeding the component. -/
theorem C6_position_on_acyclic (ws : Nat → List Wire) (rk : Nat → Nat)
    (hrk : ∀ c, ∀ w ∈ ws c, rk w.fromComponent < rk c) (c offset : Nat) :
    ∃ L, (∀ fuel, rk c < fuel → getCircuitPosition ws fuel c offset = some (offset + L)) ∧
      HasChain ws c L ∧ (∀ k, HasChain ws c k → k ≤ L) := by
  have main : ∀ (n c : Nat), rk c < n → ∀ offset,
      ∃ L, (∀ fuel, rk c < fuel →
        getCircuitPosition ws fuel c offset = some (offset + L)) ∧
      HasChain ws c L ∧ (∀ k, HasChain ws c k → k ≤ L) := by
    intro n
    induction n with
    | zero => exact fun c h => absurd h (by omega)
    | succ n ih =>
      intro c hc offset
      have hall : ∀ w ∈ ws c, ∃ Lw, (∀ fuel, rk w.fromComponent < fuel →
          getCircuitPosition ws fuel w.fromComponent 1 = some (1 + Lw)) ∧
          HasChain ws w.fromComponent Lw ∧
          (∀ k, HasChain ws w.fromComponent k → k ≤ Lw) := by
        intro w hw
        exact ih w.fromComponent (by have := hrk c w hw; omega) 1
      obtain ⟨M, hM, _, hbound, hchar⟩ := gcpFold_ranked ws rk (ws c) 0 hall
      refine ⟨M, ?_, ?_, ?_⟩
      · intro fuel hfuel
        cases fuel with
        | zero => omega
        | succ f =>
          rw [getCircuitPosition]
          have hfold : gcpFold ws f (ws c) 0 = some M := by
            refine hM f (fun w hw => ?_)
            have := hrk c w hw
            omega
          rw [hfold]
          rfl
      · rcases hchar with h0 | ⟨w, hw, k, hk, hMk⟩
        · rw [h0]
          exact HasChain.zero c
        · rw [hMk]
          exact HasChain.succ w hw hk
      · intro k hk
        cases hk with
        | zero => omega
        | succ w hw hch => exact hbound w hw _ hch
  exact main (rk c + 1) c (by omega) offset

/-- Closing the hypotheses of C6_position_on_acyclic at a concrete input: on
the forward chain 0 → 1 → 2, ranked by the identity, component 2's position
at offset 0 is 2, the length of its longest input chain. -/
theorem C6_position_on_acyclic_witness :
    getCircuitPosition wsChain 3 2 0 = some 2 ∧ HasChain wsChain 2 2 := by
  obtain ⟨L, hL, hch, hub⟩ := C6_position_on_acyclic wsChain (fun c => c)
    (by
      intro c w hw
      by_cases h1 : c = 1
      · subst h1
        have : w = ⟨0, 0, 0⟩ := by simpa [wsChain] using hw
        subst this
        decide
      · by_cases h2 : c = 2
        · subst h2
          have : w = ⟨1, 0, 0⟩ := by simpa [wsChain, h1] using hw
          subst this
          decide
        · exact absurd hw (by simp [wsChain, h1, h2])) 2 0
  have chain22 : HasChain wsChain 2 2 :=
    HasChain.succ ⟨1, 0, 0⟩ (by simp [wsChain])
      (HasChain.succ ⟨0, 0, 0⟩ (by simp [wsChain]) (HasChain.zero 0))
  have hbound2 : ∀ k, HasChain wsChain 2 k → k ≤ 2 := by
    intro k hk
    cases hk with
    | zero => omega
    | succ w hw h =>
      have hw' : w = ⟨1, 0, 0⟩ := by simpa [wsChain] using hw
      subst hw'
      cases h with
      | zero => omega
      | succ w2 hw2 h2 =>
        have hw2' : w2 = ⟨0, 0, 0⟩ := by simpa [wsChain] using hw2
        subst hw2'
        cases h2 with
        | zero => omega
        | succ w3 hw3 _ => exact absurd hw3 (by simp [wsChain])
  have hLeq : L = 2 := le_antisymm (hbound2 L hch) (hub 2 chain22)
  subst hLeq
  exact ⟨by simpa using hL 3 (by omega), chain22⟩

theorem fanout_eq_of_inWires (cfg : Cfg) {s t : St} (h : s.inWires = t.inWires) (c o : Nat) :
    fanout cfg s c o = fanout cfg t c o := by
  unfold fanout
  rw [h]

theorem fanout_setWires (cfg : Cfg) (s : St) {dst : Nat} (l : List Wire)
    (h : dst < cfg.n) (c o : Nat) :
    fanout cfg (s.setWires dst l) c o + (s.inWires dst).countP (srcMatch c o)
      = fanout cfg s c o + l.countP (srcMatch c o) := by
  have hmem : dst ∈ Finset.range cfg.n := Finset.mem_range.mpr h
  unfold fanout
  rw [← Finset.add_sum_erase _ (fun d => (St.inWires (s.setWires dst l) d).countP (srcMatch c o)) hmem,
      ← Finset.add_sum_erase _ (fun d => (s.inWires d).countP (srcMatch c o)) hmem]
  have h1 : (St.inWires (s.setWires dst l) dst).countP (srcMatch c o)
      = l.countP (srcMatch c o) := by
    simp [St.setWires]
  have h2 : ∀ d ∈ (Finset.range cfg.n).erase dst,
      (St.inWires (s.setWires dst l) d).countP (srcMatch c o)
        = (s.inWires d).countP (srcMatch c o) := by
    intro d hd
    have hne : d ≠ dst := Finset.ne_of_mem_erase hd
    simp [St.setWires, hne]
  rw [Finset.sum_congr rfl h2, h1]
  omega

theorem decRefs_refTotal (s : St) (a o₀ c b o : Nat) :
    (decRefs s a o₀).refTotal c b o
      = s.refTotal c b o - (if c = a ∧ o = o₀ then 1 else 0) := by
  by_cases h : c = a ∧ o = o₀ <;> simp [decRefs, h]

theorem incRefs_refTotal (s : St) (a o₀ c b o : Nat) :
    (incRefs s a o₀).refTotal c b o
      = s.refTotal c b o + (if c = a ∧ o = o₀ then 1 else 0) := by
  by_cases h : c = a ∧ o = o₀ <;> simp [incRefs, h]

theorem srcMatch_iff (c o : Nat) (w : Wire) :
    srcMatch c o w = true ↔ (c = w.fromComponent ∧ o = w.fromOutput) := by
  unfold srcMatch
  rw [Bool.and_eq_true, decide_eq_true_eq, decide_eq_true_eq]
  exact ⟨fun h => ⟨h.1.symm, h.2.symm⟩, fun h => ⟨h.1.symm, h.2.symm⟩⟩

theorem srcMatch_indicator (c o : Nat) (w : Wire) :
    (if srcMatch c o w = true then (1 : Nat) else 0)
      = if c = w.fromComponent ∧ o = w.fromOutput then 1 else 0 := by
  by_cases h : c = w.fromComponent ∧ o = w.fromOutput
  · rw [if_pos h, if_pos ((srcMatch_iff c o w).mpr h)]
  · rw [if_neg h, if_neg (fun hh => h ((srcMatch_iff c o w).mp hh))]

theorem removeFirstTo_countP {l : List Wire} {i : Nat} {w : Wire} {ws : List Wire}
    (h : removeFirstTo l i = (some w, ws)) (p : Wire → Bool) :
    l.countP p = ws.countP p + (if p w then 1 else 0) := by
  induction l generalizing ws with
  | nil => simp [removeFirstTo] at h
  | cons a as ih =>
    rw [removeFirstTo] at h
    by_cases ha : a.toInput = i
    · rw [if_pos ha] at h
      simp only [Prod.mk.injEq, Option.some.injEq] at h
      obtain ⟨rfl, rfl⟩ := h
      simp [List.countP_cons]
    · rw [if_neg ha] at h
      cases hr : removeFirstTo as i with
      | mk r1 r2 =>
        rw [hr] at h
        simp only [Prod.mk.injEq] at h
        obtain ⟨h1, rfl⟩ := h
        rw [h1] at hr
        rw [List.countP_cons, List.countP_cons, ih hr]
        omega

theorem dropFrom_countP (l : List Wire) (src : Nat) (p : Wire → Bool) :
    l.countP p = (dropFrom l src).1.countP p + (dropFrom l src).2.countP p := by
  induction l with
  | nil => simp [dropFrom]
  | cons a as ih =>
    rw [dropFrom]
    by_cases h : a.fromComponent = src
    · rw [if_pos h]
      dsimp only
      rw [List.countP_cons, List.countP_cons, ih]
      omega
    · rw [if_neg h]
      dsimp only
      rw [List.countP_cons, List.countP_cons, ih]
      omega

theorem foldl_decRefs_refTotal (l : List Wire) (s : St) (c b o : Nat) :
    (l.foldl (fun s' w => decRefs s' w.fromComponent w.fromOutput) s).refTotal c b o
      = s.refTotal c b o - (l.countP (srcMatch c o) : Int) := by
  induction l generalizing s with
  | nil => simp
  | cons a as ih =>
    rw [List.foldl_cons, ih, decRefs_refTotal, List.countP_cons, srcMatch_indicator]
    push_cast
    omega

theorem foldl_decRefs_inWires (l : List Wire) (s : St) :
    (l.foldl (fun s' w => decRefs s' w.fromComponent w.fromOutput) s).inWires = s.inWires := by
  induction l generalizing s with
  | nil => rfl
  | cons a as ih => rw [List.foldl_cons, ih]; rfl

theorem refTotalsOk_disconnectInput (cfg : Cfg) {s : St} {dst : Nat} (i : Nat)
    (hdst : dst < cfg.n) (hok : RefTotalsOk cfg s) :
    RefTotalsOk cfg (disconnectInput s dst i) := by
  rcases hr : removeFirstTo (s.inWires dst) i with ⟨r1, ws⟩
  cases r1 with
  | none =>
    have hD : disconnectInput s dst i = s := by rw [disconnectInput, hr]
    rw [hD]
    exact hok
  | some w =>
    have hD : disconnectInput s dst i
        = decRefs (s.setWires dst ws) w.fromComponent w.fromOutput := by
      rw [disconnectInput, hr]
    rw [hD]
    intro c b o
    have hcnt := removeFirstTo_countP hr (srcMatch c o)
    have hfan := fanout_setWires cfg s ws hdst c o
    have hwires : (decRefs (s.setWires dst ws) w.fromComponent w.fromOutput).inWires
        = (s.setWires dst ws).inWires := rfl
    rw [decRefs_refTotal, fanout_eq_of_inWires cfg hwires]
    have hbase : (s.setWires dst ws).refTotal c b o = s.refTotal c b o := rfl
    rw [hbase, hok c b o]
    rw [srcMatch_indicator] at hcnt
    by_cases hP : c = w.fromComponent ∧ o = w.fromOutput
    · rw [if_pos hP] at hcnt
      rw [if_pos hP]
      omega
    · rw [if_neg hP] at hcnt
      rw [if_neg hP]
      omega

theorem refTotalsOk_connectInput (cfg : Cfg) {s : St} {dst : Nat} (src o i : Nat)
    (hdst : dst < cfg.n) (hok : RefTotalsOk cfg s) :
    RefTotalsOk cfg (connectInput cfg s dst src o i).2 := by
  rw [connectInput]
  split
  · exact hok
  · have hok1 := refTotalsOk_disconnectInput cfg i hdst hok
    set s1 := disconnectInput s dst i with hs1
    intro c b o'
    have hwires : (incRefs (s1.setWires dst (s1.inWires dst ++ [⟨src, o, i⟩])) src o).inWires
        = (s1.setWires dst (s1.inWires dst ++ [⟨src, o, i⟩])).inWires := rfl
    show (incRefs (s1.setWires dst (s1.inWires dst ++ [⟨src, o, i⟩])) src o).refTotal c b o' = _
    rw [incRefs_refTotal, fanout_eq_of_inWires cfg hwires]
    have hbase : (s1.setWires dst (s1.inWires dst ++ [⟨src, o, i⟩])).refTotal c b o'
        = s1.refTotal c b o' := rfl
    rw [hbase, hok1 c b o']
    have hfan := fanout_setWires cfg s1 (s1.inWires dst ++ [⟨src, o, i⟩]) hdst c o'
    rw [List.countP_append] at hfan
    cases hsm : srcMatch c o' ⟨src, o, i⟩
    · have hne : ¬(c = src ∧ o' = o) := by
        have := (srcMatch_iff c o' ⟨src, o, i⟩).not
        rw [hsm] at this
        simpa using this.mp (by simp)
      rw [if_neg hne]
      have hcnt1 : List.countP (srcMatch c o') [⟨src, o, i⟩] = 0 := by
        simp [List.countP_cons, hsm]
      rw [hcnt1] at hfan
      omega
    · have heq : c = src ∧ o' = o := by
        have := (srcMatch_iff c o' ⟨src, o, i⟩).mp hsm
        exact ⟨this.1, this.2⟩
      rw [if_pos heq]
      have hcnt1 : List.countP (srcMatch c o') [⟨src, o, i⟩] = 1 := by
        simp [List.countP_cons, hsm]
      rw [hcnt1] at hfan
      omega

theorem refTotalsOk_disconnectInputByComp (cfg : Cfg) {s : St} {dst : Nat} (src : Nat)
    (hdst : dst < cfg.n) (hok : RefTotalsOk cfg s) :
    RefTotalsOk cfg (disconnectInputByComp s dst src) := by
  intro c b o
  rw [disconnectInputByComp]
  rw [foldl_decRefs_refTotal]
  have hw := foldl_decRefs_inWires (dropFrom (s.inWires dst) src).2
      (s.setWires dst (dropFrom (s.inWires dst) src).1)
  rw [fanout_eq_of_inWires cfg hw]
  have hbase : (s.setWires dst (dropFrom (s.inWires dst) src).1).refTotal c b o
      = s.refTotal c b o := rfl
  rw [hbase, hok c b o]
  have hfan := fanout_setWires cfg s (dropFrom (s.inWires dst) src).1 hdst c o
  have hcnt := dropFrom_countP (s.inWires dst) src (srcMatch c o)
  omega

theorem refTotalsOk_disconnectAllInputs (cfg : Cfg) {s : St} {dst : Nat}
    (hdst : dst < cfg.n) (hok : RefTotalsOk cfg s) :
    RefTotalsOk cfg (disconnectAllInputs cfg s dst) := by
  rw [disconnectAllInputs]
  generalize List.range (cfg.inCount dst) = l
  induction l generalizing s with
  | nil => exact hok
  | cons a as ih =>
    rw [List.foldl_cons]
    exact ih (refTotalsOk_disconnectInput cfg a hdst hok)

theorem refTotalsOk_init (cfg : Cfg) : RefTotalsOk cfg initSt := by
  intro c b o
  simp [initSt, fanout]

/-- C5: after every sequence of wiring changes (ConnectInput, DisconnectInput
by input index, DisconnectInput by source component, DisconnectAllInputs)
applied to the quiescent initial state, for every buffer and every output of
every component the stored reference total equals the number of wires
currently recorded anywhere whose source is that component and whose source
output is that output. -/
theorem C5_refTotal_matches_fanout (cfg : Cfg) (ops : List WOp)
    (hops : ∀ op ∈ ops, op.dest < cfg.n) :
    RefTotalsOk cfg (applyWOps cfg initSt ops) := by
  have main : ∀ (l : List WOp) (s : St), RefTotalsOk cfg s → (∀ op ∈ l, WOp.dest op < cfg.n) →
      RefTotalsOk cfg (l.foldl (applyWOp cfg) s) := by
    intro l
    induction l with
    | nil => exact fun s h _ => h
    | cons op rest ih =>
      intro s h hall
      rw [List.foldl_cons]
      refine ih _ ?_ (fun op' h' => hall op' (List.mem_cons_of_mem _ h'))
      have hd := hall op (List.mem_cons_self _ _)
      cases op with
      | connect dst src o i => exact refTotalsOk_connectInput cfg src o i hd h
      | disconnectIdx dst i => exact refTotalsOk_disconnectInput cfg i hd h
      | disconnectComp dst src => exact refTotalsOk_disconnectInputByComp cfg src hd h
      | disconnectAll dst => exact refTotalsOk_disconnectAllInputs cfg hd h
  exact main ops initSt (refTotalsOk_init cfg) hops

/-- Closing the hypotheses of C5_refTotal_matches_fanout at a concrete input:
after connecting 0.out0 to both inputs of component 1 and disconnecting one
again, the stored total in an arbitrary buffer equals the recorded wire count
(both are 1). -/
theorem C5_refTotal_matches_fanout_witness :
    (applyWOps cfg5 initSt ops5).refTotal 0 4 0
      = (fanout cfg5 (applyWOps cfg5 initSt ops5) 0 0 : Int) ∧
    (applyWOps cfg5 initSt ops5).refTotal 0 4 0 = 1 := by
  refine ⟨C5_refTotal_matches_fanout cfg5 ops5 (by decide) 0 4 0, by decide⟩

theorem listResize_length (l : List α) (n : Nat) (d : α) :
    (listResize l n d).length = n := by
  simp [listResize]
  omega

theorem newBufferCount_pos (pool : Option PoolArg) : 1 ≤ newBufferCount pool := by
  cases pool with
  | none => exact le_refl 1
  | some p =>
    unfold newBufferCount
    dsimp
    split <;> omega

theorem getD_of_all_false (l : List Bool) (i : Nat) (h : ∀ x ∈ l, x = false) :
    l.getD i false = false := by
  induction l generalizing i with
  | nil => simp [List.getD]
  | cons a t ih =>
    cases i with
    | zero => simpa using h a (List.mem_cons_self _ _)
    | succ j =>
      rw [List.getD_cons_succ]
      exact ih j (fun x hx => h x (List.mem_cons_of_mem _ hx))

theorem set_zero_getD (m : List Bool) (hne : m ≠ []) (hall : ∀ x ∈ m, x = false) (i : Nat) :
    (m.set 0 true).getD i false = (if i = 0 then true else false) := by
  cases m with
  | nil => exact absurd rfl hne
  | cons a t =>
    cases i with
    | zero => rfl
    | succ j =>
      rw [List.set_cons_zero, List.getD_cons_succ, if_neg (by omega)]
      exact getD_of_all_false t j (fun x hx => hall x (List.mem_cons_of_mem _ hx))

/-- C10: after every SetThreadPool call — with any pool argument, including a
null pool and a pool whose threadsPerBuffer is 0 — the component's buffer
count is at least 1; the per-buffer status, reference and flag vectors have
exactly bufferCount entries; every buffer's tick status is NotTicked; every
buffer's reference-counter table equals buffer 0's, and buffer 0's table is
the pre-call table, so wiring fan-out counts survive reconfiguration; and
buffer 0's release flag is the only one set. -/
theorem C10_setThreadPool_post (s : CompCfgSt) (pool : Option PoolArg) :
    1 ≤ (setThreadPool s pool).bufferCount ∧
    (setThreadPool s pool).tickStatuses.length = (setThreadPool s pool).bufferCount ∧
    (∀ st ∈ (setThreadPool s pool).tickStatuses, st = .notTicked) ∧
    (setThreadPool s pool).refs.length = (setThreadPool s pool).bufferCount ∧
    (∀ r ∈ (setThreadPool s pool).refs,
      r = (listResize s.refs (setThreadPool s pool).bufferCount []).headD []) ∧
    (s.refs ≠ [] →
      (listResize s.refs (setThreadPool s pool).bufferCount []).headD []
        = s.refs.headD []) ∧
    (∀ i, (setThreadPool s pool).releaseFlags.getD i false
      = (if i = 0 then true else false)) ∧
    (setThreadPool s pool).releaseFlags.length = (setThreadPool s pool).bufferCount := by
  have hbc : (setThreadPool s pool).bufferCount = newBufferCount pool := rfl
  have hpos := newBufferCount_pos pool
  refine ⟨by rw [hbc]; exact hpos, ?_, ?_, ?_, ?_, ?_, ?_, ?_⟩
  · show ((listResize s.tickStatuses (newBufferCount pool) .notTicked).map
      (fun _ => TickStatus.notTicked)).length = _
    rw [List.length_map, listResize_length, hbc]
  · intro st hst
    have hst' : st ∈ (listResize s.tickStatuses (newBufferCount pool) .notTicked).map
        (fun _ => TickStatus.notTicked) := hst
    obtain ⟨a, -, ha⟩ := List.mem_map.mp hst'
    exact ha.symm
  · show ((listResize s.refs (newBufferCount pool) []).map
      (fun _ => (listResize s.refs (newBufferCount pool) []).headD [])).length = _
    rw [List.length_map, listResize_length, hbc]
  · intro r hr
    have hr' : r ∈ (listResize s.refs (newBufferCount pool) []).map
        (fun _ => (listResize s.refs (newBufferCount pool) []).headD []) := hr
    rw [hbc]
    obtain ⟨a, -, ha⟩ := List.mem_map.mp hr'
    exact ha.symm
  · intro hne
    rw [hbc]
    cases hs : s.refs with
    | nil => exact absurd hs hne
    | cons r0 rest =>
      cases h2 : newBufferCount pool with
      | zero =>
        rw [h2] at hpos
        omega
      | succ m =>
        show ((r0 :: rest).take (m + 1)
          ++ List.replicate ((m + 1) - (r0 :: rest).length) []).headD [] = _
        rw [List.take_succ_cons]
        rfl
  · intro i
    show (((listResize s.releaseFlags (newBufferCount pool) false).map
      (fun _ => false)).set 0 true).getD i false = _
    refine set_zero_getD _ ?_ (by simp) i
    intro hemp
    have := congrArg List.length hemp
    rw [List.length_map, listResize_length] at this
    simp at this
    omega
  · show (((listResize s.releaseFlags (newBufferCount pool) false).map
      (fun _ => false)).set 0 true).length = _
    rw [List.length_set, List.length_map, listResize_length, hbc]

set_option maxRecDepth 4000 in
/-- C4 counterexample: in the Series-ticked feedback graph where output 0 of
component 0 has fan-out 2 (a self-loop reader and a forward reader), after
the first completed tick — a full pass of Tick and Reset over every
component — the consumed counter for (component 0, output 0, buffer 0) is 1
while its total is 2: the consumed counter is not congruent to 0 modulo the
total fan-out, refuting the claim for feedback graphs.  (The self-loop read
found the cell empty and did not count, the forward read counted once.) -/
theorem C4_counterexample_feedback_fanout :
    (runCex 1).map (fun s => (s.refTotal 0 0 0, s.refConsumed 0 0 0)) = some (2, 1) ∧
    ¬((1 : Int) % 2 = 0) :=
  ⟨by decide, by decide⟩

theorem refValid_of_fields (cfg : Cfg) {s t : St} (hw : t.inWires = s.inWires)
    (ht : t.refTotal = s.refTotal) (hc : t.refConsumed = s.refConsumed)
    (h : RefValid cfg s) : RefValid cfg t := by
  obtain ⟨h1, h2, h3⟩ := h
  refine ⟨fun c b o => ?_, fun d hd w hwmem => ?_, fun c b o => ?_⟩
  · rw [ht, fanout_eq_of_inWires cfg hw]
    exact h1 c b o
  · rw [hw] at hwmem
    exact h2 d hd w hwmem
  · rw [ht, hc]
    exact h3 c b o

theorem fanout_pos_of_mem (cfg : Cfg) (s : St) {c : Nat} (hc : c < cfg.n) {w : Wire}
    (hw : w ∈ s.inWires c) :
    1 ≤ fanout cfg s w.fromComponent w.fromOutput := by
  have hcnt : 0 < (s.inWires c).countP (srcMatch w.fromComponent w.fromOutput) := by
    refine List.countP_pos_iff.mpr ⟨w, hw, ?_⟩
    simp [srcMatch]
  have hle : (s.inWires c).countP (srcMatch w.fromComponent w.fromOutput)
      ≤ fanout cfg s w.fromComponent w.fromOutput := by
    unfold fanout
    exact @Finset.single_le_sum Nat Nat _
      (fun d => (s.inWires d).countP (srcMatch w.fromComponent w.fromOutput))
      (Finset.range cfg.n) (fun i _ => Nat.zero_le _) c (Finset.mem_range.mpr hc)
  omega

theorem getOutput_fields (s : St) (src b o i dst : Nat) :
    (getOutput s src b o i dst).inWires = s.inWires ∧
    (getOutput s src b o i dst).refTotal = s.refTotal := by
  rw [getOutput]
  cases s.outBus src b o with
  | none => exact ⟨rfl, rfl⟩
  | some v =>
    dsimp only
    split
    · exact ⟨rfl, rfl⟩
    · exact ⟨rfl, rfl⟩

theorem getOutput_refConsumed (s : St) (src b o i dst c b' o' : Nat) :
    (getOutput s src b o i dst).refConsumed c b' o'
      = (match s.outBus src b o with
         | none => s.refConsumed c b' o'
         | some _ =>
           if c = src ∧ b' = b ∧ o' = o then
             (if s.refConsumed src b o + 1 ≠ s.refTotal src b o
              then s.refConsumed src b o + 1 else 0)
           else s.refConsumed c b' o') := by
  rw [getOutput]
  cases s.outBus src b o with
  | none => rfl
  | some v =>
    dsimp only
    by_cases hne : s.refConsumed src b o + 1 ≠ s.refTotal src b o
    · rw [if_pos hne]
      simp [St.setConsumed, St.setIn, hne]
    · rw [if_neg hne]
      simp [St.setConsumed, St.setIn, St.setOut, hne]

theorem getOutput_refValid (cfg : Cfg) (s : St) (src b o i dst : Nat)
    (h : RefValid cfg s) (hfan : 1 ≤ fanout cfg s src o) :
    RefValid cfg (getOutput s src b o i dst) ∧
    (getOutput s src b o i dst).inWires = s.inWires := by
  obtain ⟨h1, h2, h3⟩ := h
  obtain ⟨hw, ht⟩ := getOutput_fields s src b o i dst
  refine ⟨⟨fun c b' o' => ?_, fun d hd w hwm => ?_, fun c b' o' => ?_⟩, hw⟩
  · rw [ht, fanout_eq_of_inWires cfg hw]
    exact h1 c b' o'
  · rw [hw] at hwm
    exact h2 d hd w hwm
  · have htot : s.refTotal src b o = (fanout cfg s src o : Int) := h1 src b o
    rw [ht, getOutput_refConsumed]
    cases hv : s.outBus src b o with
    | none => exact h3 c b' o'
    | some v =>
      dsimp only
      by_cases hp : c = src ∧ b' = b ∧ o' = o
      · obtain ⟨rfl, rfl, rfl⟩ := hp
        rw [if_pos ⟨rfl, rfl, rfl⟩]
        obtain ⟨hge, hor⟩ := h3 c b' o'
        have hfan' : (1 : Int) ≤ (fanout cfg s c o' : Int) := by exact_mod_cast hfan
        by_cases hne : s.refConsumed c b' o' + 1 ≠ s.refTotal c b' o'
        · rw [if_pos hne]
          constructor
          · omega
          · left
            omega
        · rw [if_neg hne]
          exact ⟨le_refl 0, Or.inr rfl⟩
      · rw [if_neg hp]
        exact h3 c b' o'

theorem mem_of_mem_enumFrom {α : Type} : ∀ (l : List α) (n : Nat) (p : Nat × α),
    p ∈ List.enumFrom n l → p.2 ∈ l := by
  intro l
  induction l with
  | nil => intro n p h; simp [List.enumFrom] at h
  | cons a t ih =>
    intro n p h
    rw [List.enumFrom] at h
    rcases List.mem_cons.mp h with rfl | hm
    · exact List.mem_cons_self _ _
    · exact List.mem_cons_of_mem _ (ih (n + 1) p hm)

theorem mem_of_mem_enum {α : Type} (l : List α) (p : Nat × α) (h : p ∈ l.enum) :
    p.2 ∈ l :=
  mem_of_mem_enumFrom l 0 p h

theorem pullPool_refValid (cfg : Cfg) (c b : Nat) (hc : c < cfg.n) :
    ∀ (l : List (Nat × Wire)) (s : St), RefValid cfg s → (∀ p ∈ l, p.2 ∈ s.inWires c) →
      RefValid cfg (pullPool c b l s) ∧ (pullPool c b l s).inWires = s.inWires := by
  intro l
  induction l with
  | nil => exact fun s h _ => ⟨h, rfl⟩
  | cons p rest ih =>
    intro s h hmem
    obtain ⟨k, w⟩ := p
    rw [pullPool]
    have h1 : RefValid cfg (if k ∈ s.feedback c b then s.eraseFeedback c b k else s) ∧
        (if k ∈ s.feedback c b then s.eraseFeedback c b k else s).inWires = s.inWires := by
      split
      · exact ⟨refValid_of_fields cfg rfl rfl rfl h, rfl⟩
      · exact ⟨h, rfl⟩
    have hwmem : w ∈ (if k ∈ s.feedback c b then s.eraseFeedback c b k else s).inWires c := by
      rw [h1.2]
      exact hmem (k, w) (List.mem_cons_self _ _)
    have hfan : 1 ≤ fanout cfg (if k ∈ s.feedback c b then s.eraseFeedback c b k else s)
        w.fromComponent w.fromOutput :=
      fanout_pos_of_mem cfg _ hc hwmem
    obtain ⟨h2, h2w⟩ := getOutput_refValid cfg _ w.fromComponent b w.fromOutput w.toInput c
      h1.1 hfan
    have h3 := ih (getOutput (if k ∈ s.feedback c b then s.eraseFeedback c b k else s)
        w.fromComponent b w.fromOutput w.toInput c) h2
      (fun p hp => by
        rw [h2w, h1.2]
        exact hmem p (List.mem_cons_of_mem _ hp))
    refine ⟨h3.1, ?_⟩
    rw [h3.2, h2w, h1.2]

theorem tickFamily_refValid : ∀ fuel : Nat,
    (∀ cfg c b s r s', RefValid cfg s → c < cfg.n →
      tick cfg fuel c b s = some (r, s') →
      RefValid cfg s' ∧ s'.inWires = s.inWires) ∧
    (∀ cfg c b (l : List (Nat × Wire)) s s', RefValid cfg s → c < cfg.n →
      (∀ p ∈ l, p.2 ∈ s.inWires c) →
      tickPre cfg fuel c b l s = some s' →
      RefValid cfg s' ∧ s'.inWires = s.inWires) ∧
    (∀ cfg c b s s', RefValid cfg s → c < cfg.n →
      doTick cfg fuel c b s = some s' →
      RefValid cfg s' ∧ s'.inWires = s.inWires) ∧
    (∀ cfg c b (l : List Wire) s s', RefValid cfg s → c < cfg.n →
      (∀ w ∈ l, w ∈ s.inWires c) →
      pullSeries cfg fuel c b l s = some s' →
      RefValid cfg s' ∧ s'.inWires = s.inWires) := by
  intro fuel
  induction fuel with
  | zero =>
    refine ⟨?_, ?_, ?_, ?_⟩
    · intro cfg c b s r s' _ _ h
      rw [tick] at h
      exact Option.noConfusion h
    · intro cfg c b l s s' _ _ _ h
      rw [tickPre] at h
      exact Option.noConfusion h
    · intro cfg c b s s' _ _ h
      rw [doTick] at h
      exact Option.noConfusion h
    · intro cfg c b l s s' _ _ _ h
      rw [pullSeries] at h
      exact Option.noConfusion h
  | succ fuel ih =>
    obtain ⟨ihTick, ihPre, ihDo, ihPull⟩ := ih
    have doTail : ∀ cfg c b (s s1 : St) s', RefValid cfg s1 → s1.inWires = s.inWires →
        (if cfg.order c = .inOrder ∧ 1 < cfg.bufferCount then
           match waitForRelease (s1.clearOutputs c b) c b with
           | none => none
           | some s3 => some (releaseThread cfg (procRun cfg c b s3) c b)
         else some (procRun cfg c b (s1.clearOutputs c b))) = some s' →
        RefValid cfg s' ∧ s'.inWires = s.inWires := by
      intro cfg c b s s1 s' hv1 hw1 h
      by_cases ho : cfg.order c = .inOrder ∧ 1 < cfg.bufferCount
      · rw [if_pos ho] at h
        cases hwr : waitForRelease (s1.clearOutputs c b) c b with
        | none => rw [hwr] at h; exact Option.noConfusion h
        | some s3 =>
          rw [hwr] at h
          dsimp only at h
          have hs3 : s3 = (s1.clearOutputs c b).setRelease c b false := by
            rw [waitForRelease] at hwr
            split at hwr
            · exact (Option.some_inj.mp hwr).symm
            · exact Option.noConfusion hwr
          subst hs3
          have hs' : s' = releaseThread cfg
              (procRun cfg c b ((s1.clearOutputs c b).setRelease c b false)) c b :=
            (Option.some_inj.mp h).symm
          subst hs'
          exact ⟨refValid_of_fields cfg rfl rfl rfl hv1, hw1⟩
      · rw [if_neg ho] at h
        have hs' : s' = procRun cfg c b (s1.clearOutputs c b) := (Option.some_inj.mp h).symm
        subst hs'
        exact ⟨refValid_of_fields cfg rfl rfl rfl hv1, hw1⟩
    refine ⟨?_, ?_, ?_, ?_⟩
    · intro cfg c b s r s' hval hc h
      rw [tick] at h
      cases hst : s.tickStatus c b
      case notTicked =>
        rw [hst] at h
        dsimp only at h
        cases hp : cfg.hasPool
        case false =>
          rw [hp] at h
          simp only [Bool.false_eq_true, if_false] at h
          cases hdt : doTick cfg fuel c b
              ((s.setStatus c b .tickStarted).setStatus c b .ticking) with
          | none => rw [hdt] at h; exact Option.noConfusion h
          | some s3 =>
            rw [hdt] at h
            simp only [Option.some.injEq, Prod.mk.injEq] at h
            obtain ⟨-, rfl⟩ := h
            have hv1 : RefValid cfg ((s.setStatus c b .tickStarted).setStatus c b .ticking) :=
              refValid_of_fields cfg rfl rfl rfl hval
            obtain ⟨ha, hb⟩ := ihDo cfg c b _ _ hv1 hc hdt
            exact ⟨ha, hb⟩
        case true =>
          rw [hp] at h
          simp only [if_true] at h
          cases htp : tickPre cfg fuel c b
              ((St.setStatus s c b .tickStarted).inWires c).enum
              (s.setStatus c b .tickStarted) with
          | none => rw [htp] at h; exact Option.noConfusion h
          | some s2 =>
            rw [htp] at h
            dsimp only at h
            cases hdt : doTick cfg fuel c b (s2.setStatus c b .ticking) with
            | none => rw [hdt] at h; exact Option.noConfusion h
            | some s4 =>
              rw [hdt] at h
              simp only [Option.some.injEq, Prod.mk.injEq] at h
              obtain ⟨-, rfl⟩ := h
              have hv1 : RefValid cfg (s.setStatus c b .tickStarted) :=
                refValid_of_fields cfg rfl rfl rfl hval
              obtain ⟨hv2, hw2⟩ := ihPre cfg c b _ _ _ hv1 hc
                (fun p hp => mem_of_mem_enum _ p hp) htp
              have hv3 : RefValid cfg (s2.setStatus c b .ticking) :=
                refValid_of_fields cfg rfl rfl rfl hv2
              obtain ⟨hv4, hw4⟩ := ihDo cfg c b _ _ hv3 hc hdt
              refine ⟨hv4, ?_⟩
              rw [hw4]
              exact hw2
      case tickStarted =>
        rw [hst] at h
        simp only [Option.some.injEq, Prod.mk.injEq] at h
        obtain ⟨-, rfl⟩ := h
        exact ⟨hval, rfl⟩
      case ticking =>
        rw [hst] at h
        simp only [Option.some.injEq, Prod.mk.injEq] at h
        obtain ⟨-, rfl⟩ := h
        exact ⟨hval, rfl⟩
    · intro cfg c b l s s' hval hc hmem h
      cases l with
      | nil =>
        rw [tickPre] at h
        exact (Option.some_inj.mp h) ▸ ⟨hval, rfl⟩
      | cons p rest =>
        obtain ⟨k, w⟩ := p
        rw [tickPre] at h
        cases ht : tick cfg fuel w.fromComponent b s with
        | none => rw [ht] at h; exact Option.noConfusion h
        | some pr =>
          obtain ⟨ok, s1⟩ := pr
          rw [ht] at h
          dsimp only at h
          have hwn : w.fromComponent < cfg.n :=
            hval.2.1 c hc w (hmem (k, w) (List.mem_cons_self _ _))
          obtain ⟨hv1, hw1⟩ := ihTick cfg w.fromComponent b s ok s1 hval hwn ht
          have hv2 : RefValid cfg (if ok = true then s1 else s1.addFeedback c b k) := by
            split
            · exact hv1
            · exact refValid_of_fields cfg rfl rfl rfl hv1
          have hw2 : (if ok = true then s1 else s1.addFeedback c b k).inWires = s.inWires := by
            split
            · exact hw1
            · exact hw1
          obtain ⟨hv3, hw3⟩ := ihPre cfg c b rest _ s' hv2 hc
            (fun p hp => by rw [hw2]; exact hmem p (List.mem_cons_of_mem _ hp)) h
          exact ⟨hv3, by rw [hw3, hw2]⟩
    · intro cfg c b s s' hval hc h
      rw [doTick] at h
      cases hp : cfg.hasPool
      case false =>
        rw [hp] at h
        simp only [Bool.false_eq_true, if_false] at h
        cases hps : pullSeries cfg fuel c b (s.inWires c) s with
        | none => rw [hps] at h; exact Option.noConfusion h
        | some s1 =>
          rw [hps] at h
          dsimp only at h
          obtain ⟨hv1, hw1⟩ := ihPull cfg c b (s.inWires c) s s1 hval hc (fun w hw => hw) hps
          exact doTail cfg c b s s1 s' hv1 hw1 h
      case true =>
        rw [hp] at h
        simp only [if_true] at h
        obtain ⟨hv1, hw1⟩ := pullPool_refValid cfg c b hc (s.inWires c).enum s hval
          (fun p hp => mem_of_mem_enum _ p hp)
        exact doTail cfg c b s (pullPool c b (s.inWires c).enum s) s' hv1 hw1 h
    · intro cfg c b l s s' hval hc hmem h
      cases l with
      | nil =>
        rw [pullSeries] at h
        exact (Option.some_inj.mp h) ▸ ⟨hval, rfl⟩
      | cons w rest =>
        rw [pullSeries] at h
        cases ht : tick cfg fuel w.fromComponent b s with
        | none => rw [ht] at h; exact Option.noConfusion h
        | some pr =>
          obtain ⟨r1, s1⟩ := pr
          rw [ht] at h
          dsimp only at h
          have hwn : w.fromComponent < cfg.n :=
            hval.2.1 c hc w (hmem w (List.mem_cons_self _ _))
          obtain ⟨hv1, hw1⟩ := ihTick cfg w.fromComponent b s r1 s1 hval hwn ht
          have hwm1 : w ∈ s1.inWires c := by
            rw [hw1]
            exact hmem w (List.mem_cons_self _ _)
          have hfan := fanout_pos_of_mem cfg s1 hc hwm1
          obtain ⟨hv2, hw2⟩ := getOutput_refValid cfg s1 w.fromComponent b w.fromOutput
            w.toInput c hv1 hfan
          obtain ⟨hv3, hw3⟩ := ihPull cfg c b rest _ s' hv2 hc
            (fun w' hw' => by rw [hw2, hw1]; exact hmem w' (List.mem_cons_of_mem _ hw')) h
          exact ⟨hv3, by rw [hw3, hw2, hw1]⟩

/-- C4 amended: the congruence "consumed ≡ 0 (mod total) after every
completed tick" fails on feedback graphs (see the counterexample theorem);
what GetOutput's counter discipline does maintain, for every valid graph in
either mode, is the range part of the claim: a returning Tick from a valid
reference state leaves the reference state valid, keeping every consumed
counter within [0, total] at every point; Reset preserves validity; and the
read that brings a counter to its total resets it to 0. -/
theorem C4_consumed_in_range :
    (∀ cfg fuel c b s r s', RefValid cfg s → c < cfg.n →
      tick cfg fuel c b s = some (r, s') →
      RefValid cfg s' ∧
        ∀ c' b' o, 0 ≤ s'.refConsumed c' b' o ∧
          s'.refConsumed c' b' o ≤ s'.refTotal c' b' o) ∧
    (∀ cfg s c b, RefValid cfg s → RefValid cfg (reset s c b)) ∧
    (∀ s src b o i dst, ∀ v : Val, s.outBus src b o = some v →
      s.refConsumed src b o + 1 = s.refTotal src b o →
      (getOutput s src b o i dst).refConsumed src b o = 0) := by
  refine ⟨?_, ?_, ?_⟩
  · intro cfg fuel c b s r s' hval hc h
    obtain ⟨hv, -⟩ := (tickFamily_refValid fuel).1 cfg c b s r s' hval hc h
    refine ⟨hv, fun c' b' o => ?_⟩
    obtain ⟨h1, h2, h3⟩ := hv
    obtain ⟨hge, hor⟩ := h3 c' b' o
    have hnn : (0 : Int) ≤ s'.refTotal c' b' o := by
      rw [h1 c' b' o]
      exact Int.natCast_nonneg _
    omega
  · exact fun cfg s c b h => refValid_of_fields cfg rfl rfl rfl h
  · intro s src b o i dst v hv heq
    rw [getOutput_refConsumed, hv]
    dsimp only
    rw [if_pos ⟨rfl, rfl, rfl⟩, if_neg (by omega)]

/-- Closing the hypotheses of C4_consumed_in_range at a concrete input: a
tick of the one-component graph from the quiescent state keeps the consumed
counter within its range. -/
theorem C4_consumed_in_range_witness :
    0 ≤ (procRun cfgW 0 0 (St.clearOutputs
        ((initSt.setStatus 0 0 .tickStarted).setStatus 0 0 .ticking) 0 0)).refConsumed 0 0 0 ∧
    (procRun cfgW 0 0 (St.clearOutputs
        ((initSt.setStatus 0 0 .tickStarted).setStatus 0 0 .ticking) 0 0)).refConsumed 0 0 0
      ≤ (procRun cfgW 0 0 (St.clearOutputs
        ((initSt.setStatus 0 0 .tickStarted).setStatus 0 0 .ticking) 0 0)).refTotal 0 0 0 := by
  have hval : RefValid cfgW initSt :=
    ⟨refTotalsOk_init cfgW, fun d hd w hw => absurd hw (List.not_mem_nil w),
      fun c b o => ⟨le_refl 0, Or.inr rfl⟩⟩
  exact (C4_consumed_in_range.1 cfgW 3 0 0 initSt true
    (procRun cfgW 0 0 (St.clearOutputs
      ((initSt.setStatus 0 0 .tickStarted).setStatus 0 0 .ticking) 0 0))
    hval (by decide) rfl).2 0 0 0

theorem inv3_st3 (f : (Nat → Option Val) → (Nat → Option Val) → Nat → Option Val) :
    Inv3 (st3 f) := by
  refine ⟨rfl, rfl, fun i => rfl, rfl, rfl, rfl⟩

theorem pass3_step (f : (Nat → Option Val) → (Nat → Option Val) → Nat → Option Val)
    (s : St) (h : Inv3 s) :
    ∃ s', pass3 f s = some s' ∧ Inv3 s' ∧ s'.log = mkE3 f (s.outBus 0 0 0) :: s.log := by
  obtain ⟨h1, h2, h3, h4, h5, h6⟩ := h
  have hst2 : ((s.setStatus 0 0 .tickStarted).setStatus 0 0 .ticking).tickStatus 0 0
      = .ticking := by
    simp [St.setStatus]
  have htick1 : tick (cfg3 f) 1 0 0 ((s.setStatus 0 0 .tickStarted).setStatus 0 0 .ticking)
      = some (true, (s.setStatus 0 0 .tickStarted).setStatus 0 0 .ticking) := by
    rw [tick, hst2]
  cases hv : s.outBus 0 0 0 with
  | none =>
    have hgo : getOutput ((s.setStatus 0 0 .tickStarted).setStatus 0 0 .ticking) 0 0 0 1 0
        = (s.setStatus 0 0 .tickStarted).setStatus 0 0 .ticking := by
      rw [getOutput,
        (show ((s.setStatus 0 0 .tickStarted).setStatus 0 0 .ticking).outBus 0 0 0 = none
          from hv)]
    have hpull : pullSeries (cfg3 f) 2 0 0 [(⟨0, 0, 1⟩ : Wire)]
        ((s.setStatus 0 0 .tickStarted).setStatus 0 0 .ticking)
        = some ((s.setStatus 0 0 .tickStarted).setStatus 0 0 .ticking) := by
      rw [pullSeries, htick1]
      dsimp only
      rw [hgo, pullSeries]
    have hdo : doTick (cfg3 f) 3 0 0 ((s.setStatus 0 0 .tickStarted).setStatus 0 0 .ticking)
        = some (procRun (cfg3 f) 0 0
            (((s.setStatus 0 0 .tickStarted).setStatus 0 0 .ticking).clearOutputs 0 0)) := by
      rw [doTick]
      rw [show ((s.setStatus 0 0 .tickStarted).setStatus 0 0 .ticking).inWires 0
        = [(⟨0, 0, 1⟩ : Wire)] from h2]
      rw [if_neg (show ¬((cfg3 f).hasPool = true) from by simp [cfg3])]
      rw [hpull]
      dsimp only
      rw [if_neg (show ¬((cfg3 f).order 0 = .inOrder ∧ 1 < (cfg3 f).bufferCount)
        from by simp [cfg3])]
    have htick4 : tick (cfg3 f) 4 0 0 s = some (true, procRun (cfg3 f) 0 0
        (((s.setStatus 0 0 .tickStarted).setStatus 0 0 .ticking).clearOutputs 0 0)) := by
      rw [tick, h1]
      dsimp only
      rw [if_neg (show ¬((cfg3 f).hasPool = true) from by simp [cfg3])]
      rw [hdo]
    refine ⟨_, by rw [pass3, htick4]; rfl, ?_, ?_⟩
    · refine ⟨rfl, h2, fun i => by simp [reset, St.clearInputs, St.setStatus], h4, h5, ?_⟩
      simp [reset, St.clearInputs, St.setStatus, procRun]
    · show (⟨0, 0, _, _⟩ : Entry) :: s.log = mkE3 f none :: s.log
      have hins : (((s.setStatus 0 0 .tickStarted).setStatus 0 0
          .ticking).clearOutputs 0 0).inBus 0 0 = mkIns3 none := by
        funext i
        show s.inBus 0 0 i = mkIns3 none i
        rw [h3 i, mkIns3]
        simp
      have houts : (((s.setStatus 0 0 .tickStarted).setStatus 0 0
          .ticking).clearOutputs 0 0).outBus 0 0 = (fun _ => none) := by
        funext o
        simp [St.clearOutputs]
      rw [mkE3, hins, houts]
      rfl
  | some v =>
    have hgo : getOutput ((s.setStatus 0 0 .tickStarted).setStatus 0 0 .ticking) 0 0 0 1 0
        = ((((s.setStatus 0 0 .tickStarted).setStatus 0 0 .ticking).setConsumed 0 0 0 0).setIn
            0 0 1 (some v)).setOut 0 0 0 none := by
      rw [getOutput,
        (show ((s.setStatus 0 0 .tickStarted).setStatus 0 0 .ticking).outBus 0 0 0 = some v
          from hv)]
      dsimp only
      rw [show ((s.setStatus 0 0 .tickStarted).setStatus 0 0 .ticking).refConsumed 0 0 0 = 0
        from h5]
      rw [show ((s.setStatus 0 0 .tickStarted).setStatus 0 0 .ticking).refTotal 0 0 0 = 1
        from h4]
      rw [if_neg (show ¬((0 : Int) + 1 ≠ 1) from by decide)]
      rw [show ((s.setStatus 0 0 .tickStarted).setStatus 0 0 .ticking).inBus 0 0 1 = none
        from h3 1]
    have hpull : pullSeries (cfg3 f) 2 0 0 [(⟨0, 0, 1⟩ : Wire)]
        ((s.setStatus 0 0 .tickStarted).setStatus 0 0 .ticking)
        = some (((((s.setStatus 0 0 .tickStarted).setStatus 0 0 .ticking).setConsumed 0 0 0
            0).setIn 0 0 1 (some v)).setOut 0 0 0 none) := by
      rw [pullSeries, htick1]
      dsimp only
      rw [hgo, pullSeries]
    have hdo : doTick (cfg3 f) 3 0 0 ((s.setStatus 0 0 .tickStarted).setStatus 0 0 .ticking)
        = some (procRun (cfg3 f) 0 0
            ((((((s.setStatus 0 0 .tickStarted).setStatus 0 0 .ticking).setConsumed 0 0 0
              0).setIn 0 0 1 (some v)).setOut 0 0 0 none).clearOutputs 0 0)) := by
      rw [doTick]
      rw [show ((s.setStatus 0 0 .tickStarted).setStatus 0 0 .ticking).inWires 0
        = [(⟨0, 0, 1⟩ : Wire)] from h2]
      rw [if_neg (show ¬((cfg3 f).hasPool = true) from by simp [cfg3])]
      rw [hpull]
      dsimp only
      rw [if_neg (show ¬((cfg3 f).order 0 = .inOrder ∧ 1 < (cfg3 f).bufferCount)
        from by simp [cfg3])]
    have htick4 : tick (cfg3 f) 4 0 0 s = some (true, procRun (cfg3 f) 0 0
        ((((((s.setStatus 0 0 .tickStarted).setStatus 0 0 .ticking).setConsumed 0 0 0
          0).setIn 0 0 1 (some v)).setOut 0 0 0 none).clearOutputs 0 0)) := by
      rw [tick, h1]
      dsimp only
      rw [if_neg (show ¬((cfg3 f).hasPool = true) from by simp [cfg3])]
      rw [hdo]
    refine ⟨_, by rw [pass3, htick4]; rfl, ?_, ?_⟩
    · refine ⟨rfl, h2, fun i => by simp [reset, St.clearInputs, St.setStatus], h4, ?_, ?_⟩
      · show (if (0 : Nat) = 0 ∧ (0 : Nat) = 0 ∧ (0 : Nat) = 0 then (0 : Int)
          else s.refConsumed 0 0 0) = 0
        simp
      · simp [reset, St.clearInputs, St.setStatus, procRun]
    · show (⟨0, 0, _, _⟩ : Entry) :: s.log = mkE3 f (some v) :: s.log
      have hins : ((((((s.setStatus 0 0 .tickStarted).setStatus 0 0 .ticking).setConsumed 0 0 0
          0).setIn 0 0 1 (some v)).setOut 0 0 0 none).clearOutputs 0 0).inBus 0 0
          = mkIns3 (some v) := by
        funext i
        show (if (0 : Nat) = 0 ∧ (0 : Nat) = 0 ∧ i = 1 then some v else s.inBus 0 0 i)
          = mkIns3 (some v) i
        rw [h3 i, mkIns3]
        by_cases hc : i = 1
        · simp [hc]
        · simp [hc]
      have houts : ((((((s.setStatus 0 0 .tickStarted).setStatus 0 0 .ticking).setConsumed 0 0 0
          0).setIn 0 0 1 (some v)).setOut 0 0 0 none).clearOutputs 0 0).outBus 0 0
          = (fun _ => none) := by
        funext o
        simp [St.clearOutputs]
      rw [mkE3, hins, houts]
      rfl

/-- C3: in the graph with the self-loop wire C.out0 → C.in1 ticked in Series
mode, with any Process_ behaviour, the value Process_ observes on input 1
during tick N equals the value produced on output 0 during tick N-1, and on
tick 0 input 1 is absent — the pull phase reads the previous tick's output
because outputs are cleared only inside the next tick's _DoTick, after the
feedback read, not during Reset. -/
theorem C3_feedback_reads_previous_tick
    (f : (Nat → Option Val) → (Nat → Option Val) → Nat → Option Val) (N : Nat) :
    (∃ e0, entry3 f 0 = some e0 ∧ e0.ins 1 = none) ∧
    (∃ e e', entry3 f (N + 1) = some e ∧ entry3 f N = some e' ∧ e.ins 1 = e'.outs 0) := by
  have main : ∀ k, ∃ s, run3 f k = some s ∧ Inv3 s := by
    intro k
    induction k with
    | zero => exact ⟨st3 f, rfl, inv3_st3 f⟩
    | succ n ih =>
      obtain ⟨s, hs, hinv⟩ := ih
      obtain ⟨s', hp, hinv', -⟩ := pass3_step f s hinv
      refine ⟨s', ?_, hinv'⟩
      rw [run3, hs]
      simpa using hp
  constructor
  · obtain ⟨s0, hs0, hinv0⟩ := main 0
    obtain ⟨s1, hp1, hinv1, hlog1⟩ := pass3_step f s0 hinv0
    have hr1 : run3 f 1 = some s1 := by
      rw [run3, hs0]
      simpa using hp1
    have hs0eq : s0 = st3 f := by
      rw [run3] at hs0
      exact (Option.some_inj.mp hs0).symm
    refine ⟨mkE3 f (s0.outBus 0 0 0), ?_, ?_⟩
    · simp only [entry3, hr1, Option.some_bind, hlog1, List.head?_cons]
    · rw [hs0eq]
      rfl
  · obtain ⟨sN, hsN, hinvN⟩ := main N
    obtain ⟨sN1, hpN1, hinvN1, hlogN1⟩ := pass3_step f sN hinvN
    have hrN1 : run3 f (N + 1) = some sN1 := by
      rw [run3, hsN]
      simpa using hpN1
    obtain ⟨sN2, hpN2, hinvN2, hlogN2⟩ := pass3_step f sN1 hinvN1
    have hrN2 : run3 f (N + 1 + 1) = some sN2 := by
      rw [run3, hrN1]
      simpa using hpN2
    refine ⟨mkE3 f (sN1.outBus 0 0 0), mkE3 f (sN.outBus 0 0 0), ?_, ?_, ?_⟩
    · simp only [entry3, hrN2, Option.some_bind, hlogN2, List.head?_cons]
    · simp only [entry3, hrN1, Option.some_bind, hlogN1, List.head?_cons]
    · have h6' := hinvN1.2.2.2.2.2
      rw [hlogN1] at h6'
      simp only [List.head?_cons] at h6'
      show mkIns3 (sN1.outBus 0 0 0) 1 = (mkE3 f (sN.outBus 0 0 0)).outs 0
      rw [show mkIns3 (sN1.outBus 0 0 0) 1 = sN1.outBus 0 0 0 from rfl, h6']

theorem nextBuffer_mod {B : Nat} (hB : 1 < B) (k : Nat) :
    nextBuffer B (k % B) = (k + 1) % B := by
  have hlt : k % B < B := Nat.mod_lt _ (by omega)
  have h1 : (k + 1) % B = (k % B + 1) % B := by
    conv_lhs => rw [Nat.add_mod, Nat.mod_eq_of_lt hB]
  unfold nextBuffer
  dsimp only
  by_cases hc : k % B + 1 = B
  · rw [if_pos hc, h1, hc, Nat.mod_self]
  · rw [if_neg hc]
    exact (h1.trans (Nat.mod_eq_of_lt (by omega))).symm

theorem runFlagsFrom_starts_cyclic {B : Nat} (hB : 1 < B) :
    ∀ (es : List FlagEv) (s : FlagSt) (m : Nat),
      ((s.running = [] ∧ ∀ b, s.flags b = decide (b = m % B)) ∨
       (s.running = [(m - 1) % B] ∧ 1 ≤ m ∧ ∀ b, s.flags b = false)) →
      ∀ s', runFlagsFrom B s es = some s' →
        startsOf es = (List.range (startsOf es).length).map (fun k => (m + k) % B) := by
  intro es
  induction es with
  | nil =>
    intro s m hInv s' h
    simp [startsOf]
  | cons e rest ih =>
    intro s m hInv s' h
    rw [runFlagsFrom] at h
    cases e with
    | start b =>
      rcases hInv with ⟨hrun, hfl⟩ | ⟨hrun, hm, hfl⟩
      · rw [flagStep] at h
        by_cases hb : s.flags b = true
        · rw [if_pos hb] at h
          have hbm : b = m % B := by
            have h2 := hfl b
            rw [hb] at h2
            exact of_decide_eq_true h2.symm
          have hinv' :
              ((FlagSt.mk (fun b' => if b' = b then false else s.flags b')
                  (b :: s.running)).running = []
                ∧ ∀ b', (FlagSt.mk (fun b' => if b' = b then false else s.flags b')
                  (b :: s.running)).flags b' = decide (b' = (m + 1) % B)) ∨
              ((FlagSt.mk (fun b' => if b' = b then false else s.flags b')
                  (b :: s.running)).running = [(m + 1 - 1) % B]
                ∧ 1 ≤ m + 1
                ∧ ∀ b', (FlagSt.mk (fun b' => if b' = b then false else s.flags b')
                  (b :: s.running)).flags b' = false) := by
            refine Or.inr ⟨?_, by omega, ?_⟩
            · rw [hrun]
              simp [hbm]
            · intro b'
              dsimp only
              by_cases hc : b' = b
              · rw [if_pos hc]
              · rw [if_neg hc, hfl b']
                exact decide_eq_false (fun hh => hc (hh.trans hbm.symm))
          have htail := ih _ (m + 1) hinv' s' h
          have hstart : startsOf (FlagEv.start b :: rest) = b :: startsOf rest := rfl
          have hlen2 : (b :: List.map (fun k => (m + 1 + k) % B)
              (List.range (startsOf rest).length)).length
              = (startsOf rest).length + 1 := by simp
          rw [hstart, htail, hlen2, List.range_succ_eq_map, List.map_cons, List.map_map]
          have hhead : b = (m + 0) % B := by
            rw [Nat.add_zero]
            exact hbm
          have htails : List.map (fun k => (m + 1 + k) % B)
              (List.range (startsOf rest).length)
              = List.map ((fun k => (m + k) % B) ∘ Nat.succ)
                (List.range (startsOf rest).length) := by
            refine List.map_congr_left (fun k _ => ?_)
            show (m + 1 + k) % B = (m + (k + 1)) % B
            congr 1
            omega
          rw [hhead, htails]
        · rw [if_neg hb] at h
          exact absurd h (by simp)
      · rw [flagStep, hfl b] at h
        exact absurd h (by simp)
    | finish b =>
      rcases hInv with ⟨hrun, hfl⟩ | ⟨hrun, hm, hfl⟩
      · rw [flagStep, hrun] at h
        exact absurd h (by simp)
      · rw [flagStep, hrun] at h
        by_cases hb : b ∈ [(m - 1) % B]
        · have hbm : b = (m - 1) % B := by simpa using hb
          rw [if_pos hb] at h
          have hnext : nextBuffer B b = m % B := by
            have hm1 : m - 1 + 1 = m := by omega
            rw [hbm, nextBuffer_mod hB, hm1]
          have hinv' :
              ((FlagSt.mk (fun b' => if b' = nextBuffer B b then true else s.flags b')
                  (([(m - 1) % B]).erase b)).running = []
                ∧ ∀ b', (FlagSt.mk (fun b' => if b' = nextBuffer B b then true else s.flags b')
                  (([(m - 1) % B]).erase b)).flags b' = decide (b' = m % B)) ∨
              ((FlagSt.mk (fun b' => if b' = nextBuffer B b then true else s.flags b')
                  (([(m - 1) % B]).erase b)).running = [(m - 1) % B]
                ∧ 1 ≤ m
                ∧ ∀ b', (FlagSt.mk (fun b' => if b' = nextBuffer B b then true else s.flags b')
                  (([(m - 1) % B]).erase b)).flags b' = false) := by
            refine Or.inl ⟨?_, ?_⟩
            · rw [hbm]
              simp
            · intro b'
              dsimp only
              by_cases hc : b' = nextBuffer B b
              · rw [if_pos hc]
                rw [hnext] at hc
                exact (decide_eq_true hc).symm
              · rw [if_neg hc, hfl b']
                rw [hnext] at hc
                exact (decide_eq_false hc).symm
          have htail := ih _ m hinv' s' h
          rw [startsOf]
          exact htail
        · rw [if_neg hb] at h
          exact absurd h (by simp)

/-- C9: for an InOrder component with more than one buffer, after
configuration only buffer 0's release flag is pre-set, and in every
realizable schedule of the release-flag protocol — where Process_ for a
buffer can begin only by consuming that buffer's flag (WaitForRelease) and
sets flag (b+1) mod bufferCount when it ends (ReleaseThread) — the sequence
of buffers whose Process_ begins is exactly 0, 1, …, B-1, 0, 1, …: a trace in
which Process_ for buffer b begins before flag b was released never occurs. -/
theorem C9_inorder_token_ring (B : Nat) (hB : 1 < B) :
    (∀ b, initFlagSt.flags b = decide (b = 0)) ∧
    (∀ es s', runFlags B es = some s' →
      startsOf es = (List.range (startsOf es).length).map (fun k => k % B)) := by
  refine ⟨fun b => rfl, fun es s' h => ?_⟩
  have h0 : (initFlagSt.running = [] ∧ ∀ b, initFlagSt.flags b = decide (b = 0 % B)) ∨
      (initFlagSt.running = [(0 - 1) % B] ∧ 1 ≤ 0 ∧ ∀ b, initFlagSt.flags b = false) := by
    refine Or.inl ⟨rfl, fun b => ?_⟩
    rw [Nat.zero_mod]
    rfl
  have := runFlagsFrom_starts_cyclic hB es initFlagSt 0 h0 s' h
  simpa using this

/-- Closing the hypotheses of C9_inorder_token_ring at a concrete input: with
2 buffers, the realizable schedule start 0, finish 0, start 1 has its starts
in buffer order, and only flag 0 is pre-set. -/
theorem C9_inorder_token_ring_witness :
    startsOf [FlagEv.start 0, FlagEv.finish 0, FlagEv.start 1] = [0, 1] ∧
    initFlagSt.flags 0 = true ∧ initFlagSt.flags 1 = false := by
  obtain ⟨h1, h2⟩ := C9_inorder_token_ring 2 (by omega)
  obtain ⟨s', hs'⟩ : ∃ s', runFlags 2 [FlagEv.start 0, FlagEv.finish 0, FlagEv.start 1]
      = some s' := ⟨_, rfl⟩
  have h3 := h2 [FlagEv.start 0, FlagEv.finish 0, FlagEv.start 1] s' hs'
  refine ⟨h3.trans (by decide), by simpa using h1 0, by simpa using h1 1⟩

/-- Closing the hypotheses of C10_setThreadPool_post at a concrete input: a
pool with 3 buffers and 0 threads per buffer reconfigures a mid-run component
to all-NotTicked statuses, preserves buffer 0's reference counters, and
pre-sets only flag 0. -/
theorem C10_setThreadPool_post_witness :
    (∀ st ∈ (setThreadPool sW10 (some ⟨3, 0⟩)).tickStatuses, st = .notTicked) ∧
    (listResize sW10.refs (setThreadPool sW10 (some ⟨3, 0⟩)).bufferCount []).headD []
      = sW10.refs.headD [] ∧
    (setThreadPool sW10 (some ⟨3, 0⟩)).releaseFlags.getD 1 false = false ∧
    (setThreadPool sW10 (some ⟨3, 0⟩)).releaseFlags.getD 0 false = true := by
  obtain ⟨h1, h2, h3, h4, h5, h6, h7, h8⟩ := C10_setThreadPool_post sW10 (some ⟨3, 0⟩)
  exact ⟨h3, h6 (by simp [sW10]), by simpa using h7 1, by simpa using h7 0⟩

end DSPatch
